import Mathlib

/-
Verification of the refund-request checklist engine (lista.py).

Shallow embedding conventions:
* Calendar dates are modelled as integers counting days from 2025-01-01
  (day 0).  2025-01-01 is a Wednesday, and Python's `date.weekday()` has
  Monday = 0, so the weekday of day `d` is `(d + 2) % 7`; Saturday and
  Sunday are weekday indices 5 and 6.
* The fixed holiday set COLOMBIA_FESTIVOS of the source becomes the day
  numbers of its six dates in this encoding: 2025-01-01 -> 0,
  2025-05-01 -> 120, 2025-07-20 -> 200, 2025-08-07 -> 218,
  2025-12-08 -> 341, 2025-12-25 -> 358.
* Strings are processed as lists of characters; Python `re` substitutions
  are implemented as character-level scanners that reproduce the
  leftmost-match, non-overlapping semantics of `re.sub` for the single-line
  strings this pipeline receives (filenames and OCR text fragments with no
  newline characters).
-/

/-- Day numbers (days since 2025-01-01) of the six fixed holidays in the
source's COLOMBIA_FESTIVOS set. -/
def COLOMBIA_FESTIVOS : List Int := [0, 120, 200, 218, 341, 358]

/-- Embeds es_dia_habil: false on Saturday/Sunday (weekday index at least 5,
with weekday = (d + 2) % 7 in this encoding) and on the fixed holidays,
true otherwise. -/
def es_dia_habil (fecha : Int) : Bool :=
  if 5 ≤ (fecha + 2) % 7 then false
  else decide (fecha ∉ COLOMBIA_FESTIVOS)

/-- One step of the while loop of fecha_limite_habiles: advance one day at a
time until a business day is found, with explicit fuel.  Fuel 7 always
suffices: any 7 consecutive days contain 5 weekdays and at most one fixed
holiday (the holidays are pairwise more than 16 days apart), which lemma
avanzaHabil_siete_spec below makes precise, so with fuel 7 this computes
exactly the next business day the source's unbounded loop reaches. -/
def avanzaHabil (fecha : Int) : Nat → Int
  | 0 => fecha
  | fuel + 1 =>
    let f := fecha + 1
    if es_dia_habil f then f else avanzaHabil f fuel

/-- Embeds fecha_limite_habiles: starting from the issuance date, walk
forward one calendar day at a time, counting only business days, until
dias_habiles of them have been counted; each counted day is the next
business day after the previous position. -/
def fecha_limite_habiles (fecha_expedicion : Int) : Nat → Int
  | 0 => fecha_expedicion
  | n + 1 => fecha_limite_habiles (avanzaHabil fecha_expedicion 7) n

/-- The days strictly after f up to and including g, as a list. -/
def diasDesdeHasta (f g : Int) : List Int :=
  (List.range (g - f).toNat).map (fun (k : Nat) => f + 1 + (k : Int))

/-- Number of business days strictly after f, up to and including g. -/
def cuentaHabiles (f g : Int) : Nat :=
  (diasDesdeHasta f g).countP (fun d => es_dia_habil d)

/-- Recursive form of cuentaHabiles over an explicit length, used in the
proofs below. -/
def cuentaLen (f : Int) : Nat → Nat
  | 0 => 0
  | l + 1 => cuentaLen f l + (if es_dia_habil (f + 1 + (l : Int)) then 1 else 0)

theorem es_dia_habil_iff (d : Int) :
    es_dia_habil d = true ↔
      ((d + 2) % 7 < 5 ∧ d ≠ 0 ∧ d ≠ 120 ∧ d ≠ 200 ∧ d ≠ 218 ∧
        d ≠ 341 ∧ d ≠ 358) := by
  unfold es_dia_habil
  by_cases h : 5 ≤ (d + 2) % 7
  · rw [if_pos h]
    simp only [Bool.false_eq_true, false_iff]
    intro hc
    omega
  · rw [if_neg h]
    simp only [decide_eq_true_eq, COLOMBIA_FESTIVOS, List.mem_cons,
      List.not_mem_nil, or_false]
    omega

/-- In any window of 7 consecutive days there is a business day: there is a
day congruent to 5 mod 7 (a Monday) and one congruent to 6 mod 7 (a
Tuesday) in the window; the only fixed holiday congruent to 5 is day 341
and none is congruent to 6. -/
theorem existeHabilEnSiete (f : Int) :
    ∃ k : Nat, 1 ≤ k ∧ k ≤ 7 ∧ es_dia_habil (f + (k : Int)) = true := by
  set a : Int := (5 - (f + 1)) % 7 with ha
  have ha0 : 0 ≤ a := Int.emod_nonneg _ (by norm_num)
  have ha7 : a < 7 := Int.emod_lt_of_pos _ (by norm_num)
  have hamod : (f + 1 + a) % 7 = 5 := by omega
  by_cases h341 : f + 1 + a = 341
  · -- the Monday in the window is the December 8 holiday; use the Tuesday
    set b : Int := (6 - (f + 1)) % 7 with hb
    have hb0 : 0 ≤ b := Int.emod_nonneg _ (by norm_num)
    have hb7 : b < 7 := Int.emod_lt_of_pos _ (by norm_num)
    have hbmod : (f + 1 + b) % 7 = 6 := by omega
    refine ⟨(1 + b).toNat, by omega, by omega, ?_⟩
    have hd : f + (((1 + b).toNat : Nat) : Int) = f + 1 + b := by omega
    rw [hd, es_dia_habil_iff]
    omega
  · refine ⟨(1 + a).toNat, by omega, by omega, ?_⟩
    have hd : f + (((1 + a).toNat : Nat) : Int) = f + 1 + a := by omega
    rw [hd, es_dia_habil_iff]
    omega

/-- With enough fuel to reach some business day, avanzaHabil returns the
least business day strictly after its starting point. -/
theorem avanzaHabil_spec :
    ∀ (fuel : Nat) (f : Int),
      (∃ k : Nat, 1 ≤ k ∧ k ≤ fuel ∧ es_dia_habil (f + (k : Int)) = true) →
      es_dia_habil (avanzaHabil f fuel) = true ∧ f < avanzaHabil f fuel ∧
        ∀ d : Int, f < d → d < avanzaHabil f fuel → es_dia_habil d = false := by
  intro fuel
  induction fuel with
  | zero => rintro f ⟨k, hk1, hk0, -⟩; omega
  | succ n ih =>
    rintro f ⟨k, hk1, hkn, hk⟩
    by_cases h1 : es_dia_habil (f + 1) = true
    · refine ⟨by simp [avanzaHabil, h1], ?_, ?_⟩
      · simp [avanzaHabil, h1]
      · intro d hd1 hd2
        simp only [avanzaHabil, h1, if_true] at hd2
        omega
    · have hk2 : 2 ≤ k := by
        rcases Nat.lt_or_ge k 2 with h | h
        · have hk1' : k = 1 := by omega
          subst hk1'
          have : ((1 : Nat) : Int) = 1 := by norm_num
          rw [this] at hk
          exact absurd hk h1
        · exact h
      have hrec := ih (f + 1) ⟨k - 1, by omega, by omega, by
        have harg : f + 1 + ((k - 1 : Nat) : Int) = f + (k : Int) := by
          omega
        rw [harg]; exact hk⟩
      have hdef : avanzaHabil f (n + 1) = avanzaHabil (f + 1) n := by
        simp [avanzaHabil, h1]
      refine ⟨by rw [hdef]; exact hrec.1, by rw [hdef]; omega, ?_⟩
      intro d hd1 hd2
      rw [hdef] at hd2
      rcases eq_or_lt_of_le (by omega : f + 1 ≤ d) with h | h
      · rw [h] at h1
        simpa using h1
      · exact hrec.2.2 d h hd2

/-- avanzaHabil with fuel 7 is the least business day after f. -/
theorem avanzaHabil_siete_spec (f : Int) :
    es_dia_habil (avanzaHabil f 7) = true ∧ f < avanzaHabil f 7 ∧
      ∀ d : Int, f < d → d < avanzaHabil f 7 → es_dia_habil d = false :=
  avanzaHabil_spec 7 f (existeHabilEnSiete f)

theorem cuentaHabiles_eq_len (f g : Int) :
    cuentaHabiles f g = cuentaLen f (g - f).toNat := by
  unfold cuentaHabiles diasDesdeHasta
  generalize (g - f).toNat = l
  induction l with
  | zero => simp [cuentaLen]
  | succ m ih =>
    rw [List.range_succ, List.map_append, List.countP_append, ih]
    simp [cuentaLen, List.countP_cons]

theorem cuentaLen_add (f : Int) (a b : Nat) :
    cuentaLen f (a + b) = cuentaLen f a + cuentaLen (f + (a : Int)) b := by
  induction b with
  | zero => simp [cuentaLen]
  | succ m ih =>
    have hs : a + (m + 1) = (a + m) + 1 := by omega
    rw [hs]
    show cuentaLen f (a + m) + _ = _
    rw [ih]
    have harg : f + 1 + ((a + m : Nat) : Int) =
        f + (a : Int) + 1 + (m : Int) := by push_cast; ring
    rw [harg]
    show _ = cuentaLen f a + (cuentaLen (f + (a : Int)) m + _)
    omega

theorem cuentaLen_vacio (f : Int) (l : Nat)
    (h : ∀ d : Int, f < d → d ≤ f + (l : Int) → es_dia_habil d = false) :
    cuentaLen f l = 0 := by
  induction l with
  | zero => rfl
  | succ m ih =>
    show cuentaLen f m + _ = 0
    have h1 : cuentaLen f m = 0 :=
      ih (fun d hd1 hd2 => h d hd1 (by push_cast; omega))
    have h2 : es_dia_habil (f + 1 + (m : Int)) = false :=
      h _ (by omega) (by push_cast; omega)
    rw [h1, h2]
    simp

theorem cuentaHabiles_siguiente (f : Int) :
    cuentaHabiles f (avanzaHabil f 7) = 1 := by
  obtain ⟨hh, hlt, hleast⟩ := avanzaHabil_siete_spec f
  rw [cuentaHabiles_eq_len]
  set g := avanzaHabil f 7 with hg
  have hm : (g - f).toNat = ((g - f).toNat - 1) + 1 := by omega
  rw [hm]
  show cuentaLen f ((g - f).toNat - 1) + _ = 1
  have h0 : cuentaLen f ((g - f).toNat - 1) = 0 := by
    apply cuentaLen_vacio
    intro d hd1 hd2
    exact hleast d hd1 (by omega)
  have harg : f + 1 + (((g - f).toNat - 1 : Nat) : Int) = g := by
    omega
  rw [h0, harg, hh]
  simp

theorem cuentaHabiles_split (f g h : Int) (hfg : f ≤ g) (hgh : g ≤ h) :
    cuentaHabiles f h = cuentaHabiles f g + cuentaHabiles g h := by
  rw [cuentaHabiles_eq_len, cuentaHabiles_eq_len, cuentaHabiles_eq_len]
  have hsum : (h - f).toNat = (g - f).toNat + (h - g).toNat := by omega
  rw [hsum, cuentaLen_add]
  have harg : f + (((g - f).toNat : Nat) : Int) = g := by omega
  rw [harg]

/-- C2 amended: for every start date and every positive number of business
days, fecha_limite_habiles returns a business day, and exactly that many
business days lie strictly after the start, up to and including the result
(for a count of zero the function returns the start date unchanged,
business day or not, which the counterexample below exhibits). -/
theorem fecha_limite_habiles_habil_y_cuenta (f : Int) (n : Nat) (hn : 1 ≤ n) :
    es_dia_habil (fecha_limite_habiles f n) = true ∧
      f < fecha_limite_habiles f n ∧
      cuentaHabiles f (fecha_limite_habiles f n) = n := by
  induction n generalizing f with
  | zero => omega
  | succ m ih =>
    rcases Nat.eq_zero_or_pos m with hm | hm
    · subst hm
      obtain ⟨hh, hlt, -⟩ := avanzaHabil_siete_spec f
      refine ⟨?_, ?_, ?_⟩
      · simpa [fecha_limite_habiles] using hh
      · simpa [fecha_limite_habiles] using hlt
      · simpa [fecha_limite_habiles] using cuentaHabiles_siguiente f
    · have hrec := ih (avanzaHabil f 7) hm
      obtain ⟨hh, hlt, -⟩ := avanzaHabil_siete_spec f
      have hdef : fecha_limite_habiles f (m + 1) =
          fecha_limite_habiles (avanzaHabil f 7) m := rfl
      refine ⟨by rw [hdef]; exact hrec.1, by rw [hdef]; omega, ?_⟩
      rw [hdef,
        cuentaHabiles_split f (avanzaHabil f 7)
          (fecha_limite_habiles (avanzaHabil f 7) m) (by omega) (by omega),
        cuentaHabiles_siguiente f, hrec.2.2]
      omega

/-- C2 witness at a concrete input: 2 business days after day 1
(Thursday 2025-01-02) land on day 6 (Monday 2025-01-06), skipping the
weekend days 3 and 4. -/
theorem fecha_limite_habiles_habil_y_cuenta_testigo :
    es_dia_habil (fecha_limite_habiles 1 2) = true ∧
      (1 : Int) < fecha_limite_habiles 1 2 ∧
      cuentaHabiles 1 (fecha_limite_habiles 1 2) = 2 :=
  fecha_limite_habiles_habil_y_cuenta 1 2 (by norm_num)

/-- C2 counterexample: with zero business days requested the function
returns the start date itself, so starting from day 3 (Saturday
2025-01-04) it returns a non-business day, contradicting the claim for
every non-negative count. -/
theorem fecha_limite_habiles_cero_no_habil :
    fecha_limite_habiles 3 0 = 3 ∧ es_dia_habil 3 = false := by
  constructor
  · rfl
  · rfl

/-- Gregorian leap-year rule, as Python's datetime uses. -/
def esBisiesto (a : Nat) : Bool :=
  (a % 4 == 0 && a % 100 != 0) || (a % 400 == 0)

/-- Days in a month of a given year, as Python's datetime uses. -/
def diasDelMes (a m : Nat) : Nat :=
  if m = 2 then (if esBisiesto a then 29 else 28)
  else if m = 4 ∨ m = 6 ∨ m = 9 ∨ m = 11 then 30
  else 31

/-- A calendar date as a year/month/day triple (the representation used by
the date-extraction claims). -/
structure FechaYMD where
  anio : Nat
  mes : Nat
  dia : Nat
deriving DecidableEq

/-- Models the Python constructor datetime(anio, mes, dia).date(): none when
the triple is not a valid calendar date (the source wraps the constructor
in try/except and skips invalid dates). -/
def construyeFecha (a m d : Nat) : Option FechaYMD :=
  if 1 ≤ m ∧ m ≤ 12 ∧ 1 ≤ d ∧ d ≤ diasDelMes a m then some ⟨a, m, d⟩ else none

/-- The 2-digit-year adjustment of the numeric pass: years below 50 go to
the 2000s, other years below 100 to the 1900s. -/
def ajustaAnio (n : Nat) : Nat :=
  if n < 100 then (if n < 50 then n + 2000 else n + 1900) else n

/-- Embeds the per-match body of strategy 3 of extraer_todas_fechas_texto
(lines 262-286): given the three numeric groups of one RE_DATE_NUMERIC
match, first the 2-digit-year adjustment is applied to the third group,
then the D-M-Y interpretation is tried, then the Y-M-D interpretation.
The D-M-Y / Y-M-D alternative of the regex only determines which capture
groups hold the numbers; both are processed by this same body. -/
def fechasTripleta (num1 num2 num3 : Nat) : List FechaYMD :=
  if 1 ≤ num1 ∧ num1 ≤ 31 ∧ 1 ≤ num2 ∧ num2 ≤ 12 ∧
      1900 ≤ ajustaAnio num3 ∧ ajustaAnio num3 ≤ 2100 then
    (construyeFecha (ajustaAnio num3) num2 num1).toList
  else if 1900 ≤ num1 ∧ num1 ≤ 2100 ∧ 1 ≤ num2 ∧ num2 ≤ 12 ∧
      1 ≤ ajustaAnio num3 ∧ ajustaAnio num3 ≤ 31 then
    (construyeFecha num1 num2 (ajustaAnio num3)).toList
  else []

/-- C3: the text '2024-05-07' matches the Y-M-D alternative of
RE_DATE_NUMERIC with groups (2024, 05, 07), yet the numeric pass produces
no candidate from it: the 2-digit-year adjustment turns the day group 7
into 2007 before the Y-M-D range check, so the Y-M-D branch never fires --
every date the numeric pass ever produces takes its day from the first
group and its month from the second (D-M-Y reading). -/
theorem fechasTripleta_ymd_inalcanzable :
    fechasTripleta 2024 5 7 = [] ∧
      ∀ n1 n2 n3 : Nat, ∀ f : FechaYMD,
        f ∈ fechasTripleta n1 n2 n3 → f.dia = n1 ∧ f.mes = n2 := by
  constructor
  · rfl
  · intro n1 n2 n3 f hf
    have hge : 100 ≤ ajustaAnio n3 := by
      unfold ajustaAnio; split_ifs <;> omega
    unfold fechasTripleta at hf
    split_ifs at hf with h1 h2
    · unfold construyeFecha at hf
      split_ifs at hf with hv
      · simp only [Option.toList_some, List.mem_singleton] at hf
        subst hf
        exact ⟨rfl, rfl⟩
      · simp at hf
    · omega
    · simp at hf

/-- The window predicate of extraer_fecha_mejorada: within 5*365 days in
the past and 365 days in the future of today. -/
def enVentana (hoy d : Int) : Bool :=
  decide (hoy - 365 * 5 ≤ d ∧ d ≤ hoy + 365)

/-- Python's max over a nonempty list (0 as an unreachable default). -/
def maximoLista : List Int → Int
  | [] => 0
  | x :: xs => xs.foldl max x

/-- Embeds the selection logic of extraer_fecha_mejorada (lines 362-383)
with the deduplicated candidate list produced by
extraer_todas_fechas_texto passed as an argument (the extraction passes
themselves delegate in part to the external dateutil parser): no
candidate yields none, a single candidate is returned as is, and with
several candidates the maximum of those within the recency window is
chosen, falling back to the maximum of all candidates when none lies in
the window. -/
def extraer_fecha_mejorada (fechas : List Int) (hoy : Int) : Option Int :=
  match fechas with
  | [] => none
  | [f] => some f
  | f :: rest =>
      let fechas_validas := (f :: rest).filter (fun d => enVentana hoy d)
      let elegidas := if fechas_validas.isEmpty then f :: rest else fechas_validas
      some (maximoLista elegidas)

theorem seed_le_foldl_max : ∀ (xs : List Int) (x : Int), x ≤ xs.foldl max x := by
  intro xs
  induction xs with
  | nil => intro x; exact le_refl x
  | cons y ys ih =>
    intro x
    simp only [List.foldl_cons]
    exact le_trans (le_max_left x y) (ih (max x y))

theorem foldl_max_mem : ∀ (xs : List Int) (x : Int), xs.foldl max x ∈ x :: xs := by
  intro xs
  induction xs with
  | nil => intro x; simp [List.foldl]
  | cons y ys ih =>
    intro x
    have h := ih (max x y)
    simp only [List.foldl_cons]
    rcases List.mem_cons.mp h with h1 | h1
    · rcases max_choice x y with hm | hm
      · exact List.mem_cons.mpr (Or.inl (h1.trans hm))
      · exact List.mem_cons.mpr (Or.inr (List.mem_cons.mpr (Or.inl (h1.trans hm))))
    · exact List.mem_cons.mpr (Or.inr (List.mem_cons.mpr (Or.inr h1)))

theorem le_foldl_max : ∀ (xs : List Int) (x d : Int),
    d ∈ x :: xs → d ≤ xs.foldl max x := by
  intro xs
  induction xs with
  | nil =>
    intro x d hd
    simp only [List.mem_singleton] at hd
    simp [hd, List.foldl]
  | cons y ys ih =>
    intro x d hd
    simp only [List.foldl_cons]
    rcases List.mem_cons.mp hd with h1 | h1
    · subst h1
      exact le_trans (le_max_left d y) (seed_le_foldl_max ys (max d y))
    · rcases List.mem_cons.mp h1 with h2 | h2
      · subst h2
        exact le_trans (le_max_right x d) (seed_le_foldl_max ys (max x d))
      · exact ih (max x y) d (List.mem_cons.mpr (Or.inr h2))

theorem maximoLista_mem (l : List Int) (h : l ≠ []) : maximoLista l ∈ l := by
  cases l with
  | nil => exact absurd rfl h
  | cons x xs => exact foldl_max_mem xs x

theorem le_maximoLista (l : List Int) (d : Int) (h : d ∈ l) : d ≤ maximoLista l := by
  cases l with
  | nil => simp at h
  | cons x xs => exact le_foldl_max xs x d h

/-- C4: extraer_fecha_mejorada is total and deterministic on its candidate
set: with no candidate it returns nothing; with more than one candidate it
returns the maximum of the candidates inside the recency window
[hoy - 5*365, hoy + 365] when that restricted set is non-empty, and
otherwise the maximum of all candidates. -/
theorem extraer_fecha_mejorada_eleccion (fechas : List Int) (hoy : Int) :
    (fechas = [] → extraer_fecha_mejorada fechas hoy = none) ∧
    (2 ≤ fechas.length →
      ∃ m, extraer_fecha_mejorada fechas hoy = some m ∧
        (fechas.filter (fun d => enVentana hoy d) ≠ [] →
          m ∈ fechas.filter (fun d => enVentana hoy d) ∧
            ∀ d ∈ fechas.filter (fun d => enVentana hoy d), d ≤ m) ∧
        (fechas.filter (fun d => enVentana hoy d) = [] →
          m ∈ fechas ∧ ∀ d ∈ fechas, d ≤ m)) := by
  constructor
  · rintro rfl; rfl
  · intro hlen
    match fechas with
    | [] => simp at hlen
    | [f] => simp at hlen
    | f :: g :: rs =>
      by_cases hv : (f :: g :: rs).filter (fun d => enVentana hoy d) = []
      · refine ⟨maximoLista (f :: g :: rs), ?_, ?_, ?_⟩
        · show some (maximoLista (if ((f :: g :: rs).filter
              (fun d => enVentana hoy d)).isEmpty then f :: g :: rs
              else (f :: g :: rs).filter (fun d => enVentana hoy d))) = _
          rw [hv]
          rfl
        · intro hc; exact absurd hv hc
        · intro _
          exact ⟨maximoLista_mem _ (by simp),
            fun d hd => le_maximoLista _ d hd⟩
      · have hne : ((f :: g :: rs).filter (fun d => enVentana hoy d)).isEmpty
            = false := by
          cases hfil : (f :: g :: rs).filter (fun d => enVentana hoy d) with
          | nil => exact absurd hfil hv
          | cons a as => rfl
        refine ⟨maximoLista ((f :: g :: rs).filter (fun d => enVentana hoy d)),
          ?_, ?_, ?_⟩
        · show some (maximoLista (if ((f :: g :: rs).filter
              (fun d => enVentana hoy d)).isEmpty then f :: g :: rs
              else (f :: g :: rs).filter (fun d => enVentana hoy d))) = _
          rw [hne]
          simp
        · intro _
          exact ⟨maximoLista_mem _ hv, fun d hd => le_maximoLista _ d hd⟩
        · intro hc; exact absurd hc hv

/-- C4 witness at a concrete input: among candidates 10 and 5 with today
= 12 both lie in the recency window and the maximum, 10, is selected. -/
theorem extraer_fecha_mejorada_eleccion_testigo :
    ∃ m, extraer_fecha_mejorada [10, 5] 12 = some m ∧
      (([10, 5] : List Int).filter (fun d => enVentana 12 d) ≠ [] →
        m ∈ ([10, 5] : List Int).filter (fun d => enVentana 12 d) ∧
          ∀ d ∈ ([10, 5] : List Int).filter (fun d => enVentana 12 d), d ≤ m) ∧
      (([10, 5] : List Int).filter (fun d => enVentana 12 d) = [] →
        m ∈ ([10, 5] : List Int) ∧ ∀ d ∈ ([10, 5] : List Int), d ≤ m) :=
  (extraer_fecha_mejorada_eleccion [10, 5] 12).2 (by decide)

/-- A rendered page as produced by extraer_info_por_pagina: source
filename, 1-based page index, OCR text, OCR confidence (a float, modelled
as a rational), classified type (clasificar_pagina never returns an empty
string, but the aggregator still normalizes a falsy type to "otro"),
optional identity number, optional extracted issuance date (stored in the
source as an ISO string, modelled as the day number it denotes) and the
signature flag. -/
structure Pagina where
  archivo : String
  pagina : Nat
  texto : String
  ocr_conf : Rat
  tipo_detectado : String
  nit_o_cedula : Option String
  fecha_documento : Option Int
  firma_manuscrita : Bool

/-- A logical document as produced by agrupar_paginas_en_documentos. -/
structure Documento where
  archivo : String
  paginas : List Nat
  texto : String
  ocr_conf : Rat
  tipo_detectado : String
  nit_o_cedula : Option String
  fecha_documento : Option Int
  firma_manuscrita : Bool
deriving DecidableEq

/-- The accumulator dict called current in the source's aggregation loop
(it keeps the page confidences as a list until the run is closed). -/
structure Acumulador where
  archivo : String
  paginas : List Nat
  texto : String
  ocr_confs : List Rat
  tipo_detectado : String
  nit_o_cedula : Option String
  fecha_documento : Option Int
  firma_manuscrita : Bool

/-- Python's p.get("tipo_detectado") or "otro": a falsy (empty) type
becomes "otro". -/
def tipoNorm (p : Pagina) : String :=
  if p.tipo_detectado = "" then "otro" else p.tipo_detectado

/-- Python truthiness of the optional identity string: None and the empty
string are falsy. -/
def nitVacio : Option String → Bool
  | none => true
  | some s => s = ""

/-- Arithmetic mean as np.mean computes it, with the source's guard that
an empty confidence list averages to 0.0. -/
def promedio (l : List Rat) : Rat :=
  if l = [] then 0 else l.sum / (l.length : Rat)

/-- Opening a new accumulator from a page (the current = {...} branches of
the source loop). -/
def abre (p : Pagina) : Acumulador :=
  { archivo := p.archivo
    paginas := [p.pagina]
    texto := p.texto
    ocr_confs := [p.ocr_conf]
    tipo_detectado := tipoNorm p
    nit_o_cedula := p.nit_o_cedula
    fecha_documento := p.fecha_documento
    firma_manuscrita := p.firma_manuscrita }

/-- Extending the accumulator with a page of the same type: append the
page number and confidence, concatenate the text paragraph-separated,
keep the first truthy identity and date, OR the signature flag. -/
def agrega (c : Acumulador) (p : Pagina) : Acumulador :=
  { c with
    paginas := c.paginas ++ [p.pagina]
    texto := c.texto ++ "\n\n" ++ p.texto
    ocr_confs := c.ocr_confs ++ [p.ocr_conf]
    nit_o_cedula :=
      if nitVacio c.nit_o_cedula && !(nitVacio p.nit_o_cedula) then
        p.nit_o_cedula
      else c.nit_o_cedula
    fecha_documento :=
      if c.fecha_documento.isNone then p.fecha_documento
      else c.fecha_documento
    firma_manuscrita := c.firma_manuscrita || p.firma_manuscrita }

/-- Closing the accumulator into a Documento, averaging the confidences. -/
def cierra (c : Acumulador) : Documento :=
  { archivo := c.archivo
    paginas := c.paginas
    texto := c.texto
    ocr_conf := promedio c.ocr_confs
    tipo_detectado := c.tipo_detectado
    nit_o_cedula := c.nit_o_cedula
    fecha_documento := c.fecha_documento
    firma_manuscrita := c.firma_manuscrita }

/-- The aggregation loop of agrupar_paginas_en_documentos after the first
page has opened the accumulator: same-type pages extend the current run,
a type change closes the current Documento and opens a new run, and the
trailing accumulator is closed at the end. -/
def agruparDesde (c : Acumulador) : List Pagina → List Documento
  | [] => [cierra c]
  | p :: ps =>
      if tipoNorm p = c.tipo_detectado then agruparDesde (agrega c p) ps
      else cierra c :: agruparDesde (abre p) ps

/-- Embeds agrupar_paginas_en_documentos: empty input gives no documents,
otherwise the first page opens the accumulator and the loop above runs. -/
def agrupar_paginas_en_documentos (paginas_info : List Pagina) : List Documento :=
  match paginas_info with
  | [] => []
  | p :: ps => agruparDesde (abre p) ps

/-- A Documento is the aggregation of one nonempty run of pages: its page
numbers are the run's page numbers in order, every page of the run has
the document's (normalized) type, and its confidence is the arithmetic
mean of the run's confidences. -/
def DocDeRun (d : Documento) (run : List Pagina) : Prop :=
  run ≠ [] ∧
  d.paginas = run.map (fun p => p.pagina) ∧
  (∀ p ∈ run, tipoNorm p = d.tipo_detectado) ∧
  d.ocr_conf = promedio (run.map (fun p => p.ocr_conf))

theorem agruparDesde_spec :
    ∀ (resto : List Pagina) (c : Acumulador) (run : List Pagina),
      run ≠ [] →
      c.paginas = run.map (fun p => p.pagina) →
      c.ocr_confs = run.map (fun p => p.ocr_conf) →
      (∀ p ∈ run, tipoNorm p = c.tipo_detectado) →
      ∃ runs : List (List Pagina),
        runs.flatten = run ++ resto ∧
        List.Forall₂ DocDeRun (agruparDesde c resto) runs ∧
        (agruparDesde c resto).Chain'
          (fun d1 d2 => d1.tipo_detectado ≠ d2.tipo_detectado) ∧
        ∃ d ds, agruparDesde c resto = d :: ds ∧
          d.tipo_detectado = c.tipo_detectado := by
  intro resto
  induction resto with
  | nil =>
    intro c run hne hpag hconf htipo
    refine ⟨[run], by simp, ?_, ?_, cierra c, [], rfl, rfl⟩
    · refine List.Forall₂.cons ⟨hne, hpag, htipo, by simp [cierra, hconf]⟩ List.Forall₂.nil
    · exact List.chain'_singleton _
  | cons p ps ih =>
    intro c run hne hpag hconf htipo
    by_cases htp : tipoNorm p = c.tipo_detectado
    · have hstep : agruparDesde c (p :: ps) = agruparDesde (agrega c p) ps := by
        simp [agruparDesde, htp]
      obtain ⟨runs, hjoin, hF, hchain, d, ds, heq, htipod⟩ :=
        ih (agrega c p) (run ++ [p]) (by simp)
          (by simp [agrega, hpag])
          (by simp [agrega, hconf])
          (by
            intro q hq
            rcases List.mem_append.mp hq with h | h
            · exact htipo q h
            · simp only [List.mem_singleton] at h
              subst h
              exact htp)
      refine ⟨runs, ?_, ?_, ?_, d, ds, ?_, ?_⟩
      · rw [hjoin]
        simp
      · rw [hstep]; exact hF
      · rw [hstep]; exact hchain
      · rw [hstep]; exact heq
      · exact htipod
    · have hstep : agruparDesde c (p :: ps) =
          cierra c :: agruparDesde (abre p) ps := by
        simp [agruparDesde, htp]
      obtain ⟨runs, hjoin, hF, hchain, d, ds, heq, htipod⟩ :=
        ih (abre p) [p] (by simp) (by simp [abre]) (by simp [abre])
          (by
            intro q hq
            simp only [List.mem_singleton] at hq
            subst hq
            rfl)
      refine ⟨run :: runs, ?_, ?_, ?_, cierra c, agruparDesde (abre p) ps,
        hstep, rfl⟩
      · show run ++ runs.flatten = _
        rw [hjoin]
        simp
      · rw [hstep]
        exact List.Forall₂.cons ⟨hne, hpag, htipo, by simp [cierra, hconf]⟩ hF
      · rw [hstep]
        refine List.chain'_cons'.mpr ⟨?_, hchain⟩
        intro y hy
        rw [heq] at hy
        simp only [List.head?_cons, Option.mem_def, Option.some_inj] at hy
        subst hy
        show c.tipo_detectado ≠ d.tipo_detectado
        rw [htipod]
        exact fun hcontra => htp hcontra.symm

/-- C7: the documents emitted by agrupar_paginas_en_documentos decompose
the input page list into consecutive nonempty runs (concatenating the
runs restores the original page sequence and each document records its
run's page numbers in order), every page of a run carries the document's
type, each document's confidence is the arithmetic mean of its run's
confidences, and consecutive documents have different types. -/
theorem agrupar_paginas_en_documentos_invariantes (paginas : List Pagina) :
    ∃ runs : List (List Pagina),
      runs.flatten = paginas ∧
      List.Forall₂ DocDeRun (agrupar_paginas_en_documentos paginas) runs ∧
      (agrupar_paginas_en_documentos paginas).Chain'
        (fun d1 d2 => d1.tipo_detectado ≠ d2.tipo_detectado) := by
  cases paginas with
  | nil => exact ⟨[], rfl, List.Forall₂.nil, List.chain'_nil⟩
  | cons p ps =>
    obtain ⟨runs, hjoin, hF, hchain, -⟩ :=
      agruparDesde_spec ps (abre p) [p] (by simp) (by simp [abre])
        (by simp [abre])
        (by
          intro q hq
          simp only [List.mem_singleton] at hq
          subst hq
          rfl)
    exact ⟨runs, by simpa using hjoin, hF, hchain⟩

/-- ASCII and Spanish lowercasing of one character (str.lower restricted to
the alphabet this pipeline sees). -/
def minusculaChar (c : Char) : Char :=
  if 'A' ≤ c ∧ c ≤ 'Z' then Char.ofNat (c.toNat + 32)
  else if c = 'Á' then 'á'
  else if c = 'É' then 'é'
  else if c = 'Í' then 'í'
  else if c = 'Ó' then 'ó'
  else if c = 'Ú' then 'ú'
  else if c = 'Ñ' then 'ñ'
  else if c = 'Ü' then 'ü'
  else c

/-- str.lower over a character list. -/
def minusculas (s : List Char) : List Char := s.map minusculaChar

/-- Prefix test on character lists. -/
def esPrefijo : List Char → List Char → Bool
  | [], _ => true
  | _ :: _, [] => false
  | a :: as, b :: bs => a == b && esPrefijo as bs

/-- Substring test on character lists (Python's `needle in haystack`). -/
def esSubcadena (aguja : List Char) : List Char → Bool
  | [] => esPrefijo aguja []
  | c :: resto => esPrefijo aguja (c :: resto) || esSubcadena aguja resto

/-- Python's `aguja in pajar` on strings. -/
def contiene (pajar aguja : String) : Bool :=
  esSubcadena aguja.data pajar.data

/-- Python str whitespace (the characters str.strip removes). -/
def esEspacio (c : Char) : Bool :=
  c = ' ' || c = '\t' || c = '\n' || c = '\x0d' || c = '\x0b' || c = '\x0c'

/-- Python str.strip(). -/
def recortaEspacios (s : List Char) : List Char :=
  ((s.dropWhile esEspacio).reverse.dropWhile esEspacio).reverse

/-- ",".join(str(p) for p in paginas). -/
def cadenaPaginas (ps : List Nat) : String :=
  String.intercalate "," (ps.map toString)

/-- One checklist item definition, as in the source's CHECKLIST dict. -/
structure ItemChecklist where
  id : String
  titulo : String
  keywords : List String
  requerido : Bool
  vigencia_dias : Option Nat

def itemCartaRepresentante : ItemChecklist :=
  { id := "carta_representante"
    titulo := "Carta firmada por el Representate Legal o quien haga sus veces, indicando de forma clara el motivo de la solicitud, relacionando el numero de planillas o tickets, período o fecha de pago, valor pagado y valor a devolver. En casos de apoderados se debe anexar poder debidamente autenticado ante notaría."
    keywords := ["carta", "solicitud", "motivo de la solicitud", "planilla", "ticket", "valor a devolver", "apoderado", "poder autenticado"]
    requerido := true
    vigencia_dias := none }

def itemRut : ItemChecklist :=
  { id := "rut"
    titulo := "Copia de Rut vigente."
    keywords := ["rut", "registro único tributario", "registro unico tributario", "copia rut"]
    requerido := true
    vigencia_dias := none }

def itemCamaraComercio : ItemChecklist :=
  { id := "camara_comercio"
    titulo := "Certificado de Existencia y Representación Legal expedido por la Cámara de Comercio no mayor a 90 días hábiles. Para otro tipo de empleadores no obligados a registrarse en Cámara de Comercio, documento idóneo que acredite la existencia y representación legal."
    keywords := ["cámara de comercio", "camara de comercio", "certificado de existencia", "certificado de existencia y representación", "certificado existencia representacion"]
    requerido := true
    vigencia_dias := some 90 }

def itemCedulaPersonaNatural : ItemChecklist :=
  { id := "cedula_persona_natural"
    titulo := "Para empleadores personas naturales copia de la Cédula de Ciudadanía."
    keywords := ["cédula", "cedula", "cédula de ciudadanía", "cedula de ciudadania", "cc"]
    requerido := false
    vigencia_dias := none }

def itemActaConsorcial : ItemChecklist :=
  { id := "acta_consorcial"
    titulo := "Para Consorcios y Uniones Temporales se deberá anexar copia del Acta Consorcial firmada por las partes, copia del Rut vigente y copia del Certificado de existencia y Representación Legal de cada uno de los Consorciados o Asociados para personas jurídicas y para personas naturales copia de la cédula de ciudadanía."
    keywords := ["acta consorcial", "consorcio", "unión temporal", "union temporal", "acta consorcio", "acta consorcial firmada"]
    requerido := false
    vigencia_dias := none }

def itemCertBancaria : ItemChecklist :=
  { id := "cert_bancaria"
    titulo := "Certificación Bancaria no mayor a 30 días hábiles de expedición a nombre del peticionario."
    keywords := ["certificación bancaria", "certificacion bancaria", "certificado bancario", "certificacion bancaria 30 dias"]
    requerido := true
    vigencia_dias := some 30 }

def itemCertContador : ItemChecklist :=
  { id := "cert_contador"
    titulo := "Certificación firmada por el Contador o Revisor Fiscal avalando el motivo de la devolución."
    keywords := ["certificación firmada", "certificacion firmada", "contador", "revisor fiscal", "certificacion contador"]
    requerido := true
    vigencia_dias := none }

def itemTarjetaProfesional : ItemChecklist :=
  { id := "tarjeta_profesional"
    titulo := "Copia de la tarjeta profesional del Contador o Revisor Fiscal que firma la certificación."
    keywords := ["tarjeta profesional", "tarjeta prof", "tarjeta profesional contador", "tarjeta profesional revisor"]
    requerido := true
    vigencia_dias := none }

def itemContratoSalarioIntegral : ItemChecklist :=
  { id := "contrato_salario_integral"
    titulo := "Para devoluciones por error en IBC por Salario Integral anexar copia de contrato firmado por las partes."
    keywords := ["contrato", "salario integral", "contrato firmado", "error en IBC"]
    requerido := false
    vigencia_dias := none }

def itemReciboPagoFic : ItemChecklist :=
  { id := "recibo_pago_fic"
    titulo := "Recibo de pagos de FIC o Monetización para Contrato de Aprendizaje."
    keywords := ["recibo", "fic", "monetizacion", "recibo de pagos", "recibo fic"]
    requerido := false
    vigencia_dias := none }

def itemResolucionesMultas : ItemChecklist :=
  { id := "resoluciones_multas"
    titulo := "Copias de las Resoluciones con la cual multaron y revocaron el pago de la Multa debidamente ejecutoriadas a 31 de diciembre de 2019."
    keywords := ["resolución", "resolucion", "multado", "revocó", "revoco", "revocaron", "resoluciones multa", "ejecutoriada"]
    requerido := false
    vigencia_dias := none }

def itemCartaPeticionario : ItemChecklist :=
  { id := "carta_peticionario"
    titulo := "Carta de solicitud firmada por el peticionario. En el caso de personas jurídicas deberá ser firmada por el representante legal."
    keywords := ["carta", "solicitud", "carta de solicitud", "firmada por el peticionario", "representante legal"]
    requerido := true
    vigencia_dias := none }

def itemCedulaPersonaNaturalNm : ItemChecklist :=
  { id := "cedula_persona_natural_nm"
    titulo := "Para personas naturales copia de la cédula de ciudadanía del peticionario."
    keywords := ["cédula", "cedula", "cedula de ciudadania", "cédula de ciudadanía", "cc"]
    requerido := true
    vigencia_dias := none }

def itemCamaraComercioNm : ItemChecklist :=
  { id := "camara_comercio_nm"
    titulo := "Para personas jurídicas, Certificado de Existencia y Representación Legal expedido por la Cámara de Comercio no mayor a 90 días hábiles. Para otro tipo de empleadores no obligados a registrarse en Cámara de Comercio, documento idóneo que acredite la existencia y representación legal."
    keywords := ["cámara de comercio", "camara de comercio", "certificado de existencia", "certificado existencia representacion"]
    requerido := true
    vigencia_dias := some 90 }

def itemRutNm : ItemChecklist :=
  { id := "rut_nm"
    titulo := "Para personas jurídicas, copia de Rut vigente."
    keywords := ["rut", "copia rut", "registro único tributario"]
    requerido := true
    vigencia_dias := none }

def itemCertBancariaNm : ItemChecklist :=
  { id := "cert_bancaria_nm"
    titulo := "Certificación Bancaria no mayor a 30 días hábiles de expedición a nombre del peticionario."
    keywords := ["certificación bancaria", "certificacion bancaria", "certificado bancario"]
    requerido := true
    vigencia_dias := some 30 }

def itemRecibosPagoNm : ItemChecklist :=
  { id := "recibos_pago_nm"
    titulo := "Copia del recibo o recibos de pago legibles."
    keywords := ["recibo", "recibos de pago", "planilla", "comprobante"]
    requerido := true
    vigencia_dias := none }

def itemActaTerminacionConvenio : ItemChecklist :=
  { id := "acta_terminacion_convenio"
    titulo := "Acta de terminación de liquidación del convenio."
    keywords := ["acta de terminación", "acta terminacion", "liquidación del convenio", "liquidacion convenio", "terminacion convenio"]
    requerido := false
    vigencia_dias := none }

def itemFacturaProduccionNm : ItemChecklist :=
  { id := "factura_produccion_nm"
    titulo := "Copia de la Factura Electrónica de venta generada por el SENA."
    keywords := ["factura", "factura electrónica", "factura electronica", "factura sena", "factura electrónica venta"]
    requerido := false
    vigencia_dias := none }

def itemCertAutorizacionCoordinadorNm : ItemChecklist :=
  { id := "cert_autorizacion_coordinador_nm"
    titulo := "Certificación de autorización de devolución del cupón de pago firmada por el Coordinador del Grupo de Recaudo y Cartera."
    keywords := ["autorización de devolución", "autorizacion de devolucion", "coordinador del grupo de recaudo", "coordinador", "certificación de autorización"]
    requerido := false
    vigencia_dias := none }

/-- The misional checklist catalog, in declaration order. -/
def CHECKLIST_misional : List ItemChecklist :=
  [itemCartaRepresentante, itemRut, itemCamaraComercio,
   itemCedulaPersonaNatural, itemActaConsorcial, itemCertBancaria,
   itemCertContador, itemTarjetaProfesional, itemContratoSalarioIntegral,
   itemReciboPagoFic, itemResolucionesMultas]

/-- The no_misional checklist catalog, in declaration order. -/
def CHECKLIST_no_misional : List ItemChecklist :=
  [itemCartaPeticionario, itemCedulaPersonaNaturalNm, itemCamaraComercioNm,
   itemRutNm, itemCertBancariaNm, itemRecibosPagoNm,
   itemActaTerminacionConvenio, itemFacturaProduccionNm,
   itemCertAutorizacionCoordinadorNm]

/-- Keyword hit count of a document for an item: the number of item
keywords that occur, lowercased, as substrings of the document's
lowercased text (lines 1104-1109 of evaluar_item). -/
def puntuacionDoc (item : ItemChecklist) (doc : Documento) : Nat :=
  (item.keywords.filter (fun kw =>
    esSubcadena (minusculas kw.data) (minusculas doc.texto.data))).length

/-- Python truthiness of `archivo_inferido and item.id in archivo_inferido`:
false when the inferred set is absent or empty. -/
def esInferido (item : ItemChecklist) (archivo_inferido : Option (List String)) : Bool :=
  match archivo_inferido with
  | none => false
  | some l => !l.isEmpty && l.contains item.id

/-- The adaptive acceptance threshold: at least 1 keyword hit when the item
was inferred from the filename, at least 2 otherwise. -/
def cumpleUmbral (item : ItemChecklist) (inferido : Bool) (doc : Documento) : Bool :=
  (inferido && decide (1 ≤ puntuacionDoc item doc)) ||
    (!inferido && decide (2 ≤ puntuacionDoc item doc))

/-- The evidence string recorded for a matching document:
"filename (p1,p2,...)". -/
def archivoEvidencia (doc : Documento) : String :=
  doc.archivo ++ " (p" ++ cadenaPaginas doc.paginas ++ ")"

/-- The issuance date the validity check resolves for a document: the
document's already-extracted date when present, otherwise the result of
re-running the date extractor over the document's text with the
bank-certificate context flag derived from the item id.  The extractor
argument stands for extraer_fecha_mejorada applied to raw text (whose
extraction passes partly delegate to the external dateutil parser). -/
def fechaResuelta (item : ItemChecklist) (extractor : String → Bool → Option Int)
    (doc : Documento) : Option Int :=
  match doc.fecha_documento with
  | some fd => some fd
  | none =>
      extractor doc.texto
        (contiene item.id "bancaria" || contiene item.id "cert_bancaria")

/-- The comparison at the heart of the validity check (lines 1145-1166):
an unresolved receipt date gives NeedsReview, otherwise the item is
Complete exactly when the receipt date is at most the expiry
fecha_limite_habiles(issuance, validity days), and Missing otherwise.
Dates inside observation strings are rendered as day numbers. -/
def validaVigencia (fecha_recepcion : Option Int) (fd : Int) (vig : Nat)
    (obsPrev : List String) : String × List String :=
  match fecha_recepcion with
  | none => ("Revisión", obsPrev ++ ["No se pudo determinar la fecha de recepción"])
  | some fr =>
      if fr ≤ fecha_limite_habiles fd vig then
        ("C", obsPrev ++
          ["Vigente: Recepción " ++ toString fr ++ " <= Límite " ++
            toString (fecha_limite_habiles fd vig)])
      else
        ("Falta", obsPrev ++
          ["Vencido: Recepción " ++ toString fr ++ " > Límite " ++
            toString (fecha_limite_habiles fd vig)])

/-- The validity-check stage of evaluar_item for a matching document of an
item with a truthy validity window (lines 1122-1173): resolve an issuance
date (re-extraction adds an observation), then compare receipt date
against the business-day expiry; an unresolvable issuance date gives
NeedsReview. -/
def estadoValidez (item : ItemChecklist) (extractor : String → Bool → Option Int)
    (fecha_recepcion : Option Int) (doc : Documento) (vig : Nat) :
    String × List String :=
  match doc.fecha_documento with
  | some fd => validaVigencia fecha_recepcion fd vig []
  | none =>
      match extractor doc.texto
          (contiene item.id "bancaria" || contiene item.id "cert_bancaria") with
      | some fd =>
          validaVigencia fecha_recepcion fd vig
            ["Fecha redetectada con método mejorado"]
      | none => ("Revisión", ["Fecha no encontrada para validar vigencia"])

/-- The status-and-observations outcome of the validity stage, including
the no-window case (a truthy vigencia_dias runs the validity check, no
window or a zero window yields Complete directly). -/
def etapaValidez (item : ItemChecklist) (extractor : String → Bool → Option Int)
    (fecha_recepcion : Option Int) (doc : Documento) : String × List String :=
  match item.vigencia_dias with
  | some v =>
      if v = 0 then ("C", [])
      else estadoValidez item extractor fecha_recepcion doc v
  | none => ("C", [])

/-- The low-confidence condition of the confidence override (line 1178):
OCR confidence below 30 or stripped text shorter than 40 characters. -/
def esBajaConf (doc : Documento) : Bool :=
  decide (doc.ocr_conf < 30) ||
    decide ((recortaEspacios doc.texto.data).length < 40)

/-- Items whose documents must carry a handwritten signature
(line 1182; the source tuple lists cert_contador twice). -/
def requiereFirma (item : ItemChecklist) : Bool :=
  item.id == "carta_representante" || item.id == "carta_peticionario" ||
    item.id == "cert_contador"

/-- The status a threshold-meeting document determines, which is the net
effect of lines 1122-1186 on the loop's estado variable: the validity
stage result, overwritten to NeedsReview by the confidence override
whenever the confidence is low (whatever the previous status), then
downgraded from Complete to NeedsReview by the signature override.  Each
matching document assigns estado in every branch, so the status after
processing a matching document depends only on that document. -/
def estadoDoc (item : ItemChecklist) (extractor : String → Bool → Option Int)
    (fecha_recepcion : Option Int) (doc : Documento) : String :=
  let e1 := (etapaValidez item extractor fecha_recepcion doc).1
  let e2 := if esBajaConf doc then "Revisión" else e1
  if requiereFirma item && !doc.firma_manuscrita then
    (if e2 = "C" then "Revisión" else e2)
  else e2

/-- The observations a threshold-meeting document appends, in the
source's order: filename-inference note, validity-stage notes,
low-confidence note, missing-signature note. -/
def observacionesDoc (item : ItemChecklist) (extractor : String → Bool → Option Int)
    (fecha_recepcion : Option Int) (inferido : Bool) (doc : Documento) :
    List String :=
  (if inferido then ["Documento asociado por inferencia de nombre de archivo"]
   else []) ++
  (etapaValidez item extractor fecha_recepcion doc).2 ++
  (if esBajaConf doc then ["OCR baja/confianza=" ++ toString doc.ocr_conf]
   else []) ++
  (if requiereFirma item && !doc.firma_manuscrita then
    ["Firma manuscrita no detectada; verificar firma digital o firma escaneada"]
   else [])

/-- The loop state of evaluar_item: collected evidence strings,
observations, and the estado variable (initially "Falta"). -/
structure EstadoEval where
  archivos : List String
  observaciones : List String
  estado : String

/-- One iteration of the document loop of evaluar_item: a document that
meets the acceptance threshold appends its evidence string and
observations and assigns the status it determines; any other document
leaves the state untouched. -/
def evaluarDocPaso (item : ItemChecklist) (extractor : String → Bool → Option Int)
    (fecha_recepcion : Option Int) (inferido : Bool)
    (st : EstadoEval) (doc : Documento) : EstadoEval :=
  if cumpleUmbral item inferido doc then
    { archivos := st.archivos ++ [archivoEvidencia doc]
      observaciones := st.observaciones ++
        observacionesDoc item extractor fecha_recepcion inferido doc
      estado := estadoDoc item extractor fecha_recepcion doc }
  else st

/-- Embeds evaluar_item: the applicability gates for petitioner type, then
the document loop, then the no-evidence fallback (Missing when required,
NotApplicable otherwise), returning
(estado, archivos or none, joined observations or none).  The
fecha_recepcion argument is the day number obtener_fecha_date resolves
from the receipt input (none when unparseable); the in-place persistence
of a re-extracted date onto the document dict has no effect within one
evaluar_item call and is not modelled. -/
def evaluar_item (item : ItemChecklist) (documentos : List Documento)
    (extractor : String → Bool → Option Int) (fecha_recepcion : Option Int)
    (tipoSolicitante : String) (archivo_inferido : Option (List String)) :
    String × Option (List String) × Option String :=
  if tipoSolicitante = "persona_natural" ∧
      (item.id = "camara_comercio_nm" ∨ item.id = "rut_nm") then
    ("N/A", none, some "No aplica para persona natural")
  else if (item.id = "cedula_persona_natural" ∨
      item.id = "cedula_persona_natural_nm") ∧
      tipoSolicitante ≠ "persona_natural" then
    ("N/A", none, some "Aplica solo si peticionario es persona natural")
  else if item.id = "acta_consorcial" ∧ tipoSolicitante ≠ "consorcio" then
    ("N/A", none, some "Aplica solo si peticionario es consorcio/unión temporal")
  else
    let inferido := esInferido item archivo_inferido
    let final := documentos.foldl
      (evaluarDocPaso item extractor fecha_recepcion inferido)
      ⟨[], [], "Falta"⟩
    let estadoFinal :=
      if final.archivos.isEmpty then
        (if item.requerido then "Falta" else "N/A")
      else final.estado
    (estadoFinal,
     if final.archivos.isEmpty then none else some final.archivos,
     if final.observaciones.isEmpty then none
     else some (String.intercalate "; " final.observaciones))

/-- C1: for an item with a truthy validity window and a matching document
whose issuance date resolves to fd, the status produced by the validity
check (before the confidence and signature overrides) is Complete exactly
when the receipt date is at most the business-day expiry
fecha_limite_habiles fd vig -- the boundary included -- and Missing
exactly when the receipt date is strictly after it. -/
theorem estadoValidez_limite_inclusivo (item : ItemChecklist)
    (extractor : String → Bool → Option Int) (doc : Documento)
    (fr fd : Int) (vig : Nat)
    (hres : fechaResuelta item extractor doc = some fd) :
    ((estadoValidez item extractor (some fr) doc vig).1 = "C" ↔
      fr ≤ fecha_limite_habiles fd vig) ∧
    ((estadoValidez item extractor (some fr) doc vig).1 = "Falta" ↔
      fecha_limite_habiles fd vig < fr) := by
  have hcore : ∀ obsPrev, ((validaVigencia (some fr) fd vig obsPrev).1 = "C" ↔
      fr ≤ fecha_limite_habiles fd vig) ∧
      ((validaVigencia (some fr) fd vig obsPrev).1 = "Falta" ↔
        fecha_limite_habiles fd vig < fr) := by
    intro obsPrev
    simp only [validaVigencia]
    by_cases h : fr ≤ fecha_limite_habiles fd vig
    · rw [if_pos h]
      refine ⟨?_, ?_⟩
      · show ("C" : String) = "C" ↔ fr ≤ fecha_limite_habiles fd vig
        exact ⟨fun _ => h, fun _ => rfl⟩
      · show ("C" : String) = "Falta" ↔ fecha_limite_habiles fd vig < fr
        refine ⟨fun hc => absurd hc (by decide), fun hlt => absurd hlt ?_⟩
        omega
    · rw [if_neg h]
      refine ⟨?_, ?_⟩
      · show ("Falta" : String) = "C" ↔ fr ≤ fecha_limite_habiles fd vig
        exact ⟨fun hc => absurd hc (by decide), fun hle => absurd hle h⟩
      · show ("Falta" : String) = "Falta" ↔ fecha_limite_habiles fd vig < fr
        exact ⟨fun _ => by omega, fun _ => rfl⟩
  cases hdoc : doc.fecha_documento with
  | some fd0 =>
    have hres' : fd0 = fd := by
      simp only [fechaResuelta, hdoc, Option.some_inj] at hres
      exact hres
    subst hres'
    simp only [estadoValidez, hdoc]
    exact hcore []
  | none =>
    have hres' : extractor doc.texto
        (contiene item.id "bancaria" || contiene item.id "cert_bancaria") =
          some fd := by
      simpa only [fechaResuelta, hdoc] using hres
    simp only [estadoValidez, hdoc, hres']
    exact hcore _

/-- A bank-certificate document with an already-extracted issuance date
(day 0, i.e. 2025-01-01) used as concrete input below. -/
def docBancarioEjemplo : Documento :=
  { archivo := "cert.pdf"
    paginas := [1]
    texto := "certificación bancaria certificacion bancaria de la cuenta corriente del banco"
    ocr_conf := 80
    tipo_detectado := "cert_bancaria"
    nit_o_cedula := none
    fecha_documento := some 0
    firma_manuscrita := true }

/-- C1 witness at a concrete input: issuance day 0 with a 30-business-day
window expires on day 42, and the boundary is included. -/
theorem estadoValidez_limite_inclusivo_testigo :
    ((estadoValidez itemCertBancaria (fun _ _ => none) (some 42)
        docBancarioEjemplo 30).1 = "C" ↔
      (42 : Int) ≤ fecha_limite_habiles 0 30) ∧
    ((estadoValidez itemCertBancaria (fun _ _ => none) (some 42)
        docBancarioEjemplo 30).1 = "Falta" ↔
      fecha_limite_habiles 0 30 < 42) :=
  estadoValidez_limite_inclusivo itemCertBancaria (fun _ _ => none)
    docBancarioEjemplo 42 0 30 rfl

theorem getLastAlguno : ∀ (l : List Documento) (y : Documento),
    ∃ z, (y :: l).getLast? = some z := by
  intro l
  induction l with
  | nil => intro y; exact ⟨y, rfl⟩
  | cons b bs ih =>
    intro y
    obtain ⟨z, hz⟩ := ih b
    exact ⟨z, by rw [List.getLast?_cons_cons]; exact hz⟩

theorem evaluarFold_archivos (item : ItemChecklist)
    (extractor : String → Bool → Option Int) (fr : Option Int)
    (inferido : Bool) :
    ∀ (docs : List Documento) (st : EstadoEval),
      (docs.foldl (evaluarDocPaso item extractor fr inferido) st).archivos =
        st.archivos ++
          (docs.filter (cumpleUmbral item inferido)).map archivoEvidencia := by
  intro docs
  induction docs with
  | nil => intro st; simp
  | cons d ds ih =>
    intro st
    simp only [List.foldl_cons, List.filter_cons]
    by_cases hd : cumpleUmbral item inferido d = true
    · rw [if_pos hd, ih]
      have hst : (evaluarDocPaso item extractor fr inferido st d).archivos =
          st.archivos ++ [archivoEvidencia d] := by
        simp [evaluarDocPaso, hd]
      rw [hst]
      simp
    · rw [if_neg hd, ih]
      have hst : evaluarDocPaso item extractor fr inferido st d = st := by
        simp only [evaluarDocPaso, hd, Bool.false_eq_true, if_false]
      rw [hst]

theorem evaluarFold_estado (item : ItemChecklist)
    (extractor : String → Bool → Option Int) (fr : Option Int)
    (inferido : Bool) :
    ∀ (docs : List Documento) (st : EstadoEval),
      (docs.foldl (evaluarDocPaso item extractor fr inferido) st).estado =
        (((docs.filter (cumpleUmbral item inferido)).getLast?).map
          (estadoDoc item extractor fr)).getD st.estado := by
  intro docs
  induction docs with
  | nil => intro st; simp
  | cons d ds ih =>
    intro st
    simp only [List.foldl_cons, List.filter_cons]
    by_cases hd : cumpleUmbral item inferido d = true
    · rw [if_pos hd, ih]
      have hst : (evaluarDocPaso item extractor fr inferido st d).estado =
          estadoDoc item extractor fr d := by
        simp [evaluarDocPaso, hd]
      cases hfil : ds.filter (cumpleUmbral item inferido) with
      | nil => simp [hst]
      | cons y ys =>
        obtain ⟨z, hz⟩ := getLastAlguno ys y
        rw [List.getLast?_cons_cons, hz]
        simp
    · rw [if_neg hd, ih]
      have hst : evaluarDocPaso item extractor fr inferido st d = st := by
        simp only [evaluarDocPaso, hd, Bool.false_eq_true, if_false]
      rw [hst]

/-- C5 amended: when the applicability gates pass and at least one document
meets the acceptance threshold, the status evaluar_item returns is the one
determined by the LAST such document -- each matching document's
evaluation overwrites the loop status, there is no short-circuit -- and
every matching document is recorded as evidence. -/
theorem evaluar_item_ultimo_documento (item : ItemChecklist)
    (documentos : List Documento) (extractor : String → Bool → Option Int)
    (fr : Option Int) (tipoSolicitante : String)
    (archivo_inferido : Option (List String)) (u : Documento)
    (hg1 : ¬(tipoSolicitante = "persona_natural" ∧
      (item.id = "camara_comercio_nm" ∨ item.id = "rut_nm")))
    (hg2 : ¬((item.id = "cedula_persona_natural" ∨
      item.id = "cedula_persona_natural_nm") ∧
      tipoSolicitante ≠ "persona_natural"))
    (hg3 : ¬(item.id = "acta_consorcial" ∧ tipoSolicitante ≠ "consorcio"))
    (hu : (documentos.filter
      (cumpleUmbral item (esInferido item archivo_inferido))).getLast? =
        some u) :
    (evaluar_item item documentos extractor fr tipoSolicitante
      archivo_inferido).1 = estadoDoc item extractor fr u ∧
    (evaluar_item item documentos extractor fr tipoSolicitante
      archivo_inferido).2.1 = some ((documentos.filter
        (cumpleUmbral item (esInferido item archivo_inferido))).map
          archivoEvidencia) := by
  have hne : documentos.filter
      (cumpleUmbral item (esInferido item archivo_inferido)) ≠ [] := by
    intro hc
    rw [hc] at hu
    simp at hu
  have harch := evaluarFold_archivos item extractor fr
    (esInferido item archivo_inferido) documentos ⟨[], [], "Falta"⟩
  have hest := evaluarFold_estado item extractor fr
    (esInferido item archivo_inferido) documentos ⟨[], [], "Falta"⟩
  have hvacio : ((documentos.foldl (evaluarDocPaso item extractor fr
      (esInferido item archivo_inferido)) ⟨[], [], "Falta"⟩).archivos).isEmpty
        = false := by
    rw [harch]
    cases hfil : documentos.filter
        (cumpleUmbral item (esInferido item archivo_inferido)) with
    | nil => exact absurd hfil hne
    | cons y ys => rfl
  unfold evaluar_item
  rw [if_neg hg1, if_neg hg2, if_neg hg3]
  simp only [hvacio, Bool.false_eq_true, if_false]
  constructor
  · rw [hest, hu]
    rfl
  · rw [harch]
    rfl

/-- The same RUT copy rendered twice: a crisp scan and a very low
confidence scan of the same text (two keyword hits each). -/
def docRutBueno : Documento :=
  { archivo := "rut.pdf"
    paginas := [1]
    texto := "copia rut de la empresa con numero de registro claro y completo"
    ocr_conf := 95
    tipo_detectado := "rut"
    nit_o_cedula := none
    fecha_documento := none
    firma_manuscrita := true }

def docRutBorroso : Documento :=
  { archivo := "rut.pdf"
    paginas := [2]
    texto := "copia rut de la empresa con numero de registro claro y completo"
    ocr_conf := 5
    tipo_detectado := "rut"
    nit_o_cedula := none
    fecha_documento := none
    firma_manuscrita := true }

/-- C5 counterexample: with two matching documents the status is not the
first match's outcome: the crisp first document alone yields Complete, but
evaluating both lets the second, low-confidence document overwrite the
status to NeedsReview. -/
theorem evaluar_item_sin_corto_circuito :
    (evaluar_item itemRut [docRutBueno, docRutBorroso] (fun _ _ => none)
      (some 10) "persona_juridica" none).1 = "Revisión" ∧
    (evaluar_item itemRut [docRutBueno] (fun _ _ => none)
      (some 10) "persona_juridica" none).1 = "C" := by
  constructor
  · rfl
  · rfl

/-- C5 witness at a concrete input: the last matching document decides. -/
theorem evaluar_item_ultimo_documento_testigo :
    (evaluar_item itemRut [docRutBueno, docRutBorroso] (fun _ _ => none)
      (some 10) "persona_juridica" none).1 =
        estadoDoc itemRut (fun _ _ => none) (some 10) docRutBorroso ∧
    (evaluar_item itemRut [docRutBueno, docRutBorroso] (fun _ _ => none)
      (some 10) "persona_juridica" none).2.1 =
        some (([docRutBueno, docRutBorroso].filter
          (cumpleUmbral itemRut (esInferido itemRut none))).map
            archivoEvidencia) :=
  evaluar_item_ultimo_documento itemRut [docRutBueno, docRutBorroso]
    (fun _ _ => none) (some 10) "persona_juridica" none docRutBorroso
    (by decide) (by decide) (by decide) (by decide)

/-- An expired, very low confidence bank certificate: issuance day 0 with
a 30-business-day window expires on day 42, receipt day 100 is past it. -/
def docBancarioVencidoBorroso : Documento :=
  { archivo := "cert.pdf"
    paginas := [1]
    texto := "certificación bancaria certificacion bancaria cuenta de ahorros del banco para devolución"
    ocr_conf := 10
    tipo_detectado := "cert_bancaria"
    nit_o_cedula := none
    fecha_documento := some 0
    firma_manuscrita := true }

set_option maxRecDepth 40000 in
/-- C6 counterexample: the validity check yields Missing (expired), yet the
confidence override does not leave Missing unchanged -- it overwrites the
final status to NeedsReview, because the source assigns estado="Revisión"
unconditionally when confidence is low. -/
theorem confianza_sobrescribe_falta :
    (etapaValidez itemCertBancaria (fun _ _ => none) (some 100)
      docBancarioVencidoBorroso).1 = "Falta" ∧
    (evaluar_item itemCertBancaria [docBancarioVencidoBorroso]
      (fun _ _ => none) (some 100) "persona_juridica" none).1 = "Revisión" := by
  constructor
  · rfl
  · rfl

/-- C6 amended: the confidence override sets the status of a matched
document's item to NeedsReview whenever the document's OCR confidence is
below 30 or its stripped text is shorter than 40 characters, regardless of
the status the validity check produced -- it downgrades Complete and
equally overwrites Missing. -/
theorem evaluar_item_baja_confianza (item : ItemChecklist)
    (documentos : List Documento) (extractor : String → Bool → Option Int)
    (fr : Option Int) (tipoSolicitante : String)
    (archivo_inferido : Option (List String)) (u : Documento)
    (hg1 : ¬(tipoSolicitante = "persona_natural" ∧
      (item.id = "camara_comercio_nm" ∨ item.id = "rut_nm")))
    (hg2 : ¬((item.id = "cedula_persona_natural" ∨
      item.id = "cedula_persona_natural_nm") ∧
      tipoSolicitante ≠ "persona_natural"))
    (hg3 : ¬(item.id = "acta_consorcial" ∧ tipoSolicitante ≠ "consorcio"))
    (hu : (documentos.filter
      (cumpleUmbral item (esInferido item archivo_inferido))).getLast? =
        some u)
    (hconf : esBajaConf u = true) :
    (evaluar_item item documentos extractor fr tipoSolicitante
      archivo_inferido).1 = "Revisión" := by
  have hne : documentos.filter
      (cumpleUmbral item (esInferido item archivo_inferido)) ≠ [] := by
    intro hc
    rw [hc] at hu
    simp at hu
  have harch := evaluarFold_archivos item extractor fr
    (esInferido item archivo_inferido) documentos ⟨[], [], "Falta"⟩
  have hest := evaluarFold_estado item extractor fr
    (esInferido item archivo_inferido) documentos ⟨[], [], "Falta"⟩
  have hvacio : ((documentos.foldl (evaluarDocPaso item extractor fr
      (esInferido item archivo_inferido)) ⟨[], [], "Falta"⟩).archivos).isEmpty
        = false := by
    rw [harch]
    cases hfil : documentos.filter
        (cumpleUmbral item (esInferido item archivo_inferido)) with
    | nil => exact absurd hfil hne
    | cons y ys => rfl
  have hdoc : estadoDoc item extractor fr u = "Revisión" := by
    unfold estadoDoc
    simp only [hconf, if_true]
    by_cases hf : (requiereFirma item && !u.firma_manuscrita) = true
    · rw [if_pos hf, if_neg (by decide)]
    · rw [if_neg hf]
  unfold evaluar_item
  rw [if_neg hg1, if_neg hg2, if_neg hg3]
  simp only [hvacio, Bool.false_eq_true, if_false]
  rw [hest, hu]
  simpa using hdoc

/-- C6 witness at a concrete input: the expired low-confidence bank
certificate ends as NeedsReview. -/
theorem evaluar_item_baja_confianza_testigo :
    (evaluar_item itemCertBancaria [docBancarioVencidoBorroso]
      (fun _ _ => none) (some 100) "persona_juridica" none).1 = "Revisión" :=
  evaluar_item_baja_confianza itemCertBancaria [docBancarioVencidoBorroso]
    (fun _ _ => none) (some 100) "persona_juridica" none
    docBancarioVencidoBorroso (by decide) (by decide) (by decide)
    (by decide) (by decide)

/-- Python \w (Unicode word character), restricted to the character
repertoire this pipeline sees: ASCII alphanumerics, underscore and the
Spanish accented letters. -/
def esCarPalabra (c : Char) : Bool :=
  ('a' ≤ c && c ≤ 'z') || ('A' ≤ c && c ≤ 'Z') || ('0' ≤ c && c ≤ '9') ||
  c = '_' ||
  c = 'á' || c = 'é' || c = 'í' || c = 'ó' || c = 'ú' || c = 'ñ' || c = 'ü' ||
  c = 'Á' || c = 'É' || c = 'Í' || c = 'Ó' || c = 'Ú' || c = 'Ñ' || c = 'Ü'

/-- The chained .replace calls of clasificar_documento_robusto: lowercase
accented vowels to their plain forms (ñ and ü are left alone there). -/
def quitaAcentosBasico (s : List Char) : List Char :=
  s.map (fun c =>
    if c = 'á' then 'a'
    else if c = 'é' then 'e'
    else if c = 'í' then 'i'
    else if c = 'ó' then 'o'
    else if c = 'ú' then 'u'
    else c)

/-- re.sub(r'[^\w\s]', ' ', s): non-word, non-space characters become
spaces. -/
def limpiaNoPalabra (s : List Char) : List Char :=
  s.map (fun c => if esCarPalabra c || esEspacio c then c else ' ')

/-- re.sub(r'\s+', ' ', s): collapse whitespace runs to single spaces
(the boolean records whether the previous character was whitespace). -/
def colapsaAux : Bool → List Char → List Char
  | _, [] => []
  | enEsp, c :: r =>
      if esEspacio c then
        (if enEsp then colapsaAux true r else ' ' :: colapsaAux true r)
      else c :: colapsaAux false r

def colapsaEspacios (s : List Char) : List Char := colapsaAux false s

/-- The combined-text normalization of clasificar_documento_robusto
(lines 440-445): lowercase, strip accented vowels, punctuation to
spaces, collapse whitespace, strip. -/
def normalizaClasificar (s : List Char) : List Char :=
  recortaEspacios (colapsaEspacios (limpiaNoPalabra (quitaAcentosBasico (minusculas s))))

/-- str.split(): split on whitespace runs, discarding empty pieces (the
first argument accumulates the current word reversed). -/
def divideAux : List Char → List Char → List (List Char)
  | actual, [] => if actual.isEmpty then [] else [actual.reverse]
  | actual, c :: r =>
      if esEspacio c then
        (if actual.isEmpty then divideAux [] r
         else actual.reverse :: divideAux [] r)
      else divideAux (c :: actual) r

def divideEnPalabras (s : List Char) : List (List Char) := divideAux [] s

/-- The DOC_KEYWORDS taxonomy, in the source's declaration order. -/
def DOC_KEYWORDS : List (String × List String) :=
  [("carta",
    ["solicitud", "carta", "solicita devolución", "motivo de la solicitud",
     "carta de solicitud", "carta de peticion", "representante legal",
     "atentamente", "cordiales saludos", "respetados señores"]),
   ("rut",
    ["rut", "registro único tributario", "registro unico tributario",
     "numero de identificacion tributaria", "número de identificación tributaria"]),
   ("camara_comercio",
    ["cámara de comercio", "camara de comercio", "certificado de existencia",
     "certificado de existencia y representacion", "certificado de representacion legal",
     "matricula mercantil"]),
   ("cert_bancaria",
    ["certificación bancaria", "certificacion bancaria", "certificado bancario",
     "certificación de cuenta", "certificacion de cuenta", "saldo bancario",
     "certificado de saldo", "entidad financiera", "numero de cuenta",
     "cuenta corriente", "cuenta de ahorros", "banco", "bancaria", "bancario"]),
   ("recibo_pago",
    ["recibo", "recibos de pago", "planilla", "comprobante de pago",
     "comprobante de transaccion", "voucher de pago", "pago de planilla",
     "transaccion financiera", "numero de recibo"]),
   ("resolucion",
    ["resolución", "resolucion", "revocó", "revoco", "revocado", "multado",
     "resolucion administrativa", "acto administrativo", "ejecutoriada"]),
   ("tarjeta_profesional",
    ["tarjeta profesional", "tarjeta prof", "tarjeta del contador",
     "tarjeta del revisor fiscal", "matricula profesional"]),
   ("acta_consorcial",
    ["acta consorcial", "consorcio", "unión temporal", "union temporal",
     "acta de consorcio", "contrato de union temporal", "joint venture"]),
   ("contrato",
    ["contrato", "salario integral", "contrato firmado", "contrato de trabajo",
     "contrato laboral", "clausulas contractuales"])]

/-- The per-type score accumulation (lines 449-467): 3 points when the
normalized keyword is a substring of the lowercased raw filename, 1 point
when it is a substring of the normalized combined text, and a 2-point
bonus when a multi-word keyword has every word somewhere in the combined
text. -/
def puntuacionTipo (nombreMin texto_completo : List Char)
    (keywords : List String) : Nat :=
  keywords.foldl (fun score kw =>
    let kwn := quitaAcentosBasico (minusculas kw.data)
    let s1 := if esSubcadena kwn nombreMin then 3 else 0
    let s2 := if esSubcadena kwn texto_completo then 1 else 0
    let palabras := divideEnPalabras kwn
    let s3 := if 1 < palabras.length &&
        palabras.all (fun p => esSubcadena p texto_completo) then 2 else 0
    score + s1 + s2 + s3) 0

/-- The score of every type for one (filename, OCR text) pair, in
taxonomy order. -/
def puntuaciones (nombre_archivo texto_ocr : String) : List (String × Nat) :=
  let texto_completo :=
    normalizaClasificar (nombre_archivo ++ " " ++ texto_ocr).data
  let nombreMin := minusculas nombre_archivo.data
  DOC_KEYWORDS.map (fun par => (par.1, puntuacionTipo nombreMin texto_completo par.2))

/-- Python's max(scores, key=scores.get) over the insertion-ordered dict:
keep the first pair, replacing it only on a strictly greater value. -/
def maxPorPuntuacion : List (String × Nat) → String × Nat
  | [] => ("otro", 0)
  | p :: resto => resto.foldl (fun mejor q => if mejor.2 < q.2 then q else mejor) p

/-- Embeds clasificar_documento_robusto: all-zero scores classify as
"otro", otherwise the first type with the maximum score wins. -/
def clasificar_documento_robusto (nombre_archivo texto_ocr : String) : String :=
  let ps := puntuaciones nombre_archivo texto_ocr
  if ps.all (fun p => p.2 == 0) then "otro" else (maxPorPuntuacion ps).1

/-- Modelled from the claim's words for comparison (refinement check): the
same classifier but with the 3-point filename component tested against the
NORMALIZED filename (accents stripped, punctuation removed) instead of the
raw lowercased filename the source uses. -/
def clasificarSpecC8 (nombre_archivo texto_ocr : String) : String :=
  let texto_completo :=
    normalizaClasificar (nombre_archivo ++ " " ++ texto_ocr).data
  let nombreNorm := normalizaClasificar nombre_archivo.data
  let ps := DOC_KEYWORDS.map (fun par =>
    (par.1, puntuacionTipo nombreNorm texto_completo par.2))
  if ps.all (fun p => p.2 == 0) then "otro" else (maxPorPuntuacion ps).1

theorem foldl_mejor_spec : ∀ (l : List (String × Nat)) (p : String × Nat),
    (l.foldl (fun mejor q => if mejor.2 < q.2 then q else mejor) p ∈ p :: l) ∧
    (∀ q ∈ p :: l,
      q.2 ≤ (l.foldl (fun mejor q => if mejor.2 < q.2 then q else mejor) p).2) ∧
    (p :: l).find? (fun q => q.2 ==
        (l.foldl (fun mejor q => if mejor.2 < q.2 then q else mejor) p).2) =
      some (l.foldl (fun mejor q => if mejor.2 < q.2 then q else mejor) p) := by
  intro l
  induction l with
  | nil =>
    intro p
    refine ⟨by simp, by simp, ?_⟩
    simp [List.find?]
  | cons q l' ih =>
    intro p
    simp only [List.foldl_cons]
    by_cases hlt : p.2 < q.2
    · rw [if_pos hlt]
      obtain ⟨hmem, hbound, hfind⟩ := ih q
      refine ⟨List.mem_cons.mpr (Or.inr hmem), ?_, ?_⟩
      · intro r hr
        rcases List.mem_cons.mp hr with h1 | h1
        · subst h1
          exact le_trans (le_of_lt hlt) (hbound q (List.mem_cons_self q l'))
        · exact hbound r h1
      · rw [List.find?_cons]
        have hne : (p.2 == (l'.foldl
            (fun mejor q => if mejor.2 < q.2 then q else mejor) q).2) = false := by
          have := hbound q (List.mem_cons_self q l')
          simp only [beq_eq_false_iff_ne, ne_eq]
          omega
        rw [hne]
        exact hfind
    · rw [if_neg hlt]
      obtain ⟨hmem, hbound, hfind⟩ := ih p
      refine ⟨?_, ?_, ?_⟩
      · rcases List.mem_cons.mp hmem with h1 | h1
        · exact List.mem_cons.mpr (Or.inl h1)
        · exact List.mem_cons.mpr (Or.inr (List.mem_cons.mpr (Or.inr h1)))
      · intro r hr
        rcases List.mem_cons.mp hr with h1 | h1
        · exact h1 ▸ hbound p (List.mem_cons_self p l')
        · rcases List.mem_cons.mp h1 with h2 | h2
          · subst h2
            exact le_trans (le_of_not_lt hlt) (hbound p (List.mem_cons_self p l'))
          · exact hbound r (List.mem_cons.mpr (Or.inr h2))
      · rw [List.find?_cons] at hfind ⊢
        by_cases hp : (p.2 == (l'.foldl
            (fun mejor q => if mejor.2 < q.2 then q else mejor) p).2) = true
        · rw [hp] at hfind ⊢
          exact hfind
        · rw [Bool.not_eq_true] at hp
          rw [hp] at hfind ⊢
          have hq : (q.2 == (l'.foldl
              (fun mejor q => if mejor.2 < q.2 then q else mejor) p).2) = false := by
            have h1 := hbound p (List.mem_cons_self p l')
            simp only [beq_eq_false_iff_ne, ne_eq] at hp ⊢
            intro hc
            apply hp
            omega
          rw [List.find?_cons, hq]
          exact hfind

theorem maxPorPuntuacion_mem (ps : List (String × Nat)) (h : ps ≠ []) :
    maxPorPuntuacion ps ∈ ps := by
  cases ps with
  | nil => exact absurd rfl h
  | cons p l => exact (foldl_mejor_spec l p).1

set_option maxRecDepth 100000 in
/-- C8 amended: clasificar_documento_robusto classifies as "otro" exactly
when every type's score is zero, and otherwise returns the first type (in
the taxonomy's declaration order) attaining the maximum score, where each
type's score adds 3 per keyword found as a substring of the RAW lowercased
filename (accents and punctuation intact -- not the normalized filename),
1 per keyword found in the normalized combined filename+text, and a
2-point bonus per multi-word keyword whose every word appears in the
combined text; the concrete example "certificacion_bancaria_empresa.pdf"
with empty OCR text classifies as cert_bancaria. -/
theorem clasificar_documento_robusto_argmax (nombre texto : String) :
    (clasificar_documento_robusto nombre texto = "otro" ↔
      ∀ p ∈ puntuaciones nombre texto, p.2 = 0) ∧
    ((¬ ∀ p ∈ puntuaciones nombre texto, p.2 = 0) →
      ∃ v, (clasificar_documento_robusto nombre texto, v) ∈
          puntuaciones nombre texto ∧
        (∀ p ∈ puntuaciones nombre texto, p.2 ≤ v) ∧
        (puntuaciones nombre texto).find? (fun q => q.2 == v) =
          some (clasificar_documento_robusto nombre texto, v)) ∧
    clasificar_documento_robusto "certificacion_bancaria_empresa.pdf" ""
      = "cert_bancaria" := by
  have hkeys : ∀ p ∈ puntuaciones nombre texto, p.1 ≠ "otro" := by
    intro p hp
    simp only [puntuaciones, List.mem_map] at hp
    obtain ⟨par, hpar, rfl⟩ := hp
    have hd : ∀ par ∈ DOC_KEYWORDS, par.1 ≠ "otro" := by decide
    exact hd par hpar
  have hne : puntuaciones nombre texto ≠ [] := by
    simp only [puntuaciones, DOC_KEYWORDS]
    simp
  by_cases hz : (puntuaciones nombre texto).all (fun p => p.2 == 0) = true
  · have hcl : clasificar_documento_robusto nombre texto = "otro" := by
      unfold clasificar_documento_robusto
      rw [if_pos hz]
    refine ⟨?_, ?_, by rfl⟩
    · rw [hcl]
      constructor
      · intro _
        intro p hp
        have := List.all_eq_true.mp hz p hp
        simpa using this
      · intro _
        rfl
    · intro hc
      exact absurd (fun p hp => by
        have := List.all_eq_true.mp hz p hp
        simpa using this) hc
  · have hcl : clasificar_documento_robusto nombre texto =
        (maxPorPuntuacion (puntuaciones nombre texto)).1 := by
      unfold clasificar_documento_robusto
      rw [if_neg hz]
    refine ⟨?_, ?_, by rfl⟩
    · constructor
      · intro hco
        exact absurd (hcl ▸ hco)
          (hkeys _ (maxPorPuntuacion_mem _ hne))
      · intro hzz
        exact absurd (by
          rw [List.all_eq_true]
          intro p hp
          simpa using hzz p hp) hz
    · intro _
      cases hps : puntuaciones nombre texto with
      | nil => exact absurd hps hne
      | cons p l =>
        obtain ⟨hmem, hbound, hfind⟩ := foldl_mejor_spec l p
        have hfold : maxPorPuntuacion (p :: l) =
            l.foldl (fun mejor q => if mejor.2 < q.2 then q else mejor) p := rfl
        have hcl2 : clasificar_documento_robusto nombre texto =
            (maxPorPuntuacion (p :: l)).1 := by rw [hcl, hps]
        refine ⟨(maxPorPuntuacion (p :: l)).2, ?_, ?_, ?_⟩
        · rw [hcl2, hfold]
          simpa using hmem
        · intro q hq
          rw [hfold]
          exact hbound q hq
        · rw [hcl2, hfold]
          simpa using hfind
set_option maxRecDepth 100000 in
/-- C8 counterexample: on the filename "resolución carta.pdf" with empty
OCR text, the source scores the 3-point filename component against the raw
lowercased filename (where the accented "resolución" does not contain the
normalized keyword "resolucion") and classifies as "carta", while the
claim's scoring against the NORMALIZED filename gives "resolucion" the
maximum; the claim's formula does not agree with the code. -/
theorem clasificar_nombre_crudo :
    clasificar_documento_robusto "resolución carta.pdf" "" = "carta" ∧
    clasificarSpecC8 "resolución carta.pdf" "" = "resolucion" := by
  exact ⟨rfl, rfl⟩

set_option maxRecDepth 100000 in
/-- C8 witness at a concrete input: on
"certificacion_bancaria_empresa.pdf" the scores are not all zero and the
classifier returns the first maximum, cert_bancaria. -/
theorem clasificar_documento_robusto_argmax_testigo :
    ∃ v, (clasificar_documento_robusto "certificacion_bancaria_empresa.pdf" "",
        v) ∈ puntuaciones "certificacion_bancaria_empresa.pdf" "" ∧
      (∀ p ∈ puntuaciones "certificacion_bancaria_empresa.pdf" "", p.2 ≤ v) ∧
      (puntuaciones "certificacion_bancaria_empresa.pdf" "").find?
          (fun q => q.2 == v) =
        some (clasificar_documento_robusto "certificacion_bancaria_empresa.pdf"
          "", v) :=
  (clasificar_documento_robusto_argmax "certificacion_bancaria_empresa.pdf"
    "").2.1 (by decide)

/-- ASCII digit. -/
def esDigito (c : Char) : Bool := '0' ≤ c && c ≤ '9'

/-- Word-character test on an optional neighbour (none at the string
edges, where a word boundary always faces a word character). -/
def esPalabraOpc : Option Char → Bool
  | none => false
  | some c => esCarPalabra c

/-- Digit test on an optional neighbour. -/
def esDigitoOpc : Option Char → Bool
  | none => false
  | some c => esDigito c

/-- Generic single-pass re.sub with one-character lookbehind and
lookahead: the rule sees the ORIGINAL previous character (as re does for
zero-width lookarounds within one substitution call), the current
character and the original next character. -/
def subContexto (regla : Option Char → Char → Option Char → Char) :
    Option Char → List Char → List Char
  | _, [] => []
  | prev, c :: resto =>
      regla prev c resto.head? :: subContexto regla (some c) resto

/-- re.sub(r'\bl\b', '1', s): a lone letter l (word boundaries on both
sides) becomes the digit 1. -/
def reglaLAislada (prev : Option Char) (c : Char) (sig : Option Char) : Char :=
  if c = 'l' ∧ esPalabraOpc prev = false ∧ esPalabraOpc sig = false then '1'
  else c

/-- re.sub(r'(?<=\d)X(?=\d)', '0', s): the target letter between two
digits becomes 0. -/
def reglaEntreDigitos (objetivo : Char) (prev : Option Char) (c : Char)
    (sig : Option Char) : Char :=
  if c = objetivo ∧ esDigitoOpc prev = true ∧ esDigitoOpc sig = true then '0'
  else c

/-- The bracket characters re.sub(r'[\[\]\{\}\(\)]', '', s) deletes. -/
def esParentesisChar (c : Char) : Bool :=
  c = '[' || c = ']' || c = '{' || c = '}' || c = '(' || c = ')'

/-- Embeds limpiar_texto_fecha: pipe to slash, lone l to 1, O and o
between digits to 0, then delete bracket characters. -/
def limpiar_texto_fecha (s : List Char) : List Char :=
  ((subContexto (reglaEntreDigitos 'o') none
    (subContexto (reglaEntreDigitos 'O') none
      (subContexto reglaLAislada none
        (s.map (fun c => if c = '|' then '/' else c))))).filter
    (fun c => !esParentesisChar c))

/-- A string satisfies a context rule (the rule changes nothing anywhere,
walking with the previous character as context). -/
def pasaRegla (regla : Option Char → Char → Option Char → Char) :
    Option Char → List Char → Prop
  | _, [] => True
  | prev, c :: resto =>
      regla prev c resto.head? = c ∧ pasaRegla regla (some c) resto

theorem subContexto_id (regla : Option Char → Char → Option Char → Char) :
    ∀ (s : List Char) (prev : Option Char),
      pasaRegla regla prev s → subContexto regla prev s = s := by
  intro s
  induction s with
  | nil => intro prev _; rfl
  | cons c r ih =>
    intro prev hp
    obtain ⟨h1, h2⟩ := hp
    simp only [subContexto, h1]
    rw [ih (some c) h2]

theorem mapa_id {f : Char → Char} :
    ∀ s : List Char, (∀ c ∈ s, f c = c) → s.map f = s := by
  intro s
  induction s with
  | nil => intro _; rfl
  | cons c r ih =>
    intro h
    simp only [List.map_cons]
    rw [h c (List.mem_cons_self c r), ih (fun d hd => h d (List.mem_cons.mpr (Or.inr hd)))]

theorem mem_subContexto (regla : Option Char → Char → Option Char → Char)
    (rep : Char) (hr : ∀ p c n, regla p c n = c ∨ regla p c n = rep) :
    ∀ (s : List Char) (prev : Option Char) (c' : Char),
      c' ∈ subContexto regla prev s → c' ∈ s ∨ c' = rep := by
  intro s
  induction s with
  | nil => intro prev c' h; simp [subContexto] at h
  | cons c r ih =>
    intro prev c' h
    simp only [subContexto, List.mem_cons] at h
    rcases h with h | h
    · rcases hr prev c r.head? with h1 | h1
      · rw [h1] at h
        exact Or.inl (List.mem_cons.mpr (Or.inl h))
      · rw [h1] at h
        exact Or.inr h
    · rcases ih (some c) c' h with h1 | h1
      · exact Or.inl (List.mem_cons.mpr (Or.inr h1))
      · exact Or.inr h1

theorem reglaLAislada_rango (p : Option Char) (c : Char) (n : Option Char) :
    reglaLAislada p c n = c ∨ reglaLAislada p c n = '1' := by
  unfold reglaLAislada
  split_ifs with h
  · exact Or.inr rfl
  · exact Or.inl rfl

theorem reglaEntreDigitos_rango (x : Char) (p : Option Char) (c : Char)
    (n : Option Char) :
    reglaEntreDigitos x p c n = c ∨ reglaEntreDigitos x p c n = '0' := by
  unfold reglaEntreDigitos
  split_ifs with h
  · exact Or.inr rfl
  · exact Or.inl rfl

theorem pasaRegla_sin_objetivo (x : Char) :
    ∀ (s : List Char) (prev : Option Char),
      (∀ c ∈ s, c ≠ x) → pasaRegla (reglaEntreDigitos x) prev s := by
  intro s
  induction s with
  | nil => intro prev _; trivial
  | cons c r ih =>
    intro prev h
    refine ⟨?_, ih (some c) (fun d hd => h d (List.mem_cons.mpr (Or.inr hd)))⟩
    unfold reglaEntreDigitos
    rw [if_neg]
    intro hc
    exact h c (List.mem_cons_self c r) hc.1

theorem reglaLAislada_palabra (p : Option Char) (c : Char) (n : Option Char) :
    esCarPalabra (reglaLAislada p c n) = esCarPalabra c := by
  rcases reglaLAislada_rango p c n with h | h
  · rw [h]
  · rw [h]
    unfold reglaLAislada at h
    split_ifs at h with hc
    · rw [hc.1]
      decide
    · subst h
      rfl

theorem reglaEntreDigitos_palabra (x : Char) (hx : esCarPalabra x = true)
    (p : Option Char) (c : Char) (n : Option Char) :
    esCarPalabra (reglaEntreDigitos x p c n) = esCarPalabra c := by
  unfold reglaEntreDigitos
  split_ifs with h
  · rw [h.1, hx]
    decide
  · rfl

theorem cabeza_subContexto (regla : Option Char → Char → Option Char → Char)
    (hpal : ∀ p c n, esCarPalabra (regla p c n) = esCarPalabra c)
    (s : List Char) (prev : Option Char) :
    esPalabraOpc ((subContexto regla prev s).head?) = esPalabraOpc s.head? := by
  cases s with
  | nil => rfl
  | cons c r =>
    simp only [subContexto, List.head?_cons, esPalabraOpc]
    exact hpal prev c r.head?

theorem pasaReglaL_self :
    ∀ (s : List Char) (prev1 prev2 : Option Char),
      esPalabraOpc prev1 = esPalabraOpc prev2 →
      pasaRegla reglaLAislada prev2 (subContexto reglaLAislada prev1 s) := by
  intro s
  induction s with
  | nil => intro prev1 prev2 _; trivial
  | cons c r ih =>
    intro prev1 prev2 hprev
    simp only [subContexto]
    constructor
    · have hcab := cabeza_subContexto reglaLAislada reglaLAislada_palabra r (some c)
      rcases reglaLAislada_rango prev1 c r.head? with h | h
      · rw [h]
        by_cases hcl : c = 'l'
        · subst hcl
          have hfalso : ¬(esPalabraOpc prev1 = false ∧
              esPalabraOpc r.head? = false) := by
            intro hc
            unfold reglaLAislada at h
            rw [if_pos ⟨rfl, hc.1, hc.2⟩] at h
            exact absurd h (by decide)
          simp only [reglaLAislada]
          rw [if_neg]
          intro hc
          rw [hcab] at hc
          exact hfalso ⟨hprev.trans hc.2.1, hc.2.2⟩
        · simp only [reglaLAislada]
          rw [if_neg]
          intro hc
          exact hcl hc.1
      · rw [h]
        simp only [reglaLAislada]
        rw [if_neg]
        intro hc
        exact absurd hc.1 (by decide)
    · exact ih (some c) (some (reglaLAislada prev1 c r.head?))
        (by
          simp only [esPalabraOpc]
          exact (reglaLAislada_palabra prev1 c r.head?).symm)

theorem cabeza_digitos_sin_prev (x : Char) (prev : Option Char)
    (hp : esDigitoOpc prev = false) (r : List Char) :
    (subContexto (reglaEntreDigitos x) prev r).head? = r.head? := by
  cases r with
  | nil => rfl
  | cons c rr =>
    simp only [subContexto, List.head?_cons, Option.some_inj]
    unfold reglaEntreDigitos
    rw [if_neg]
    intro hc
    rw [hc.2.1] at hp
    exact absurd hp (by decide)

theorem pasaReglaL_tras_oSub (x : Char) (hx : esCarPalabra x = true)
    (hxl : ('0' : Char) ≠ 'l') :
    ∀ (u : List Char) (prevA prevB prevC : Option Char),
      esPalabraOpc prevA = esPalabraOpc prevC →
      pasaRegla reglaLAislada prevA u →
      pasaRegla reglaLAislada prevC (subContexto (reglaEntreDigitos x) prevB u) := by
  intro u
  induction u with
  | nil => intro _ _ _ _ _; trivial
  | cons c resto ih =>
    intro prevA prevB prevC hprev hp
    obtain ⟨h1, h2⟩ := hp
    simp only [subContexto]
    constructor
    · have hcab := cabeza_subContexto (reglaEntreDigitos x)
        (reglaEntreDigitos_palabra x hx) resto (some c)
      rcases reglaEntreDigitos_rango x prevB c resto.head? with hc' | hc'
      · rw [hc']
        by_cases hcl : c = 'l'
        · subst hcl
          have hfalso : ¬(esPalabraOpc prevA = false ∧
              esPalabraOpc resto.head? = false) := by
            intro hc
            unfold reglaLAislada at h1
            rw [if_pos ⟨rfl, hc.1, hc.2⟩] at h1
            exact absurd h1 (by decide)
          simp only [reglaLAislada]
          rw [if_neg]
          intro hc
          rw [hcab] at hc
          exact hfalso ⟨hprev.trans hc.2.1, hc.2.2⟩
        · simp only [reglaLAislada]
          rw [if_neg]
          intro hc
          exact hcl hc.1
      · rw [hc']
        simp only [reglaLAislada]
        rw [if_neg]
        intro hc
        exact hxl hc.1
    · exact ih (some c) (some c) (some (reglaEntreDigitos x prevB c resto.head?))
        (by
          simp only [esPalabraOpc]
          exact (reglaEntreDigitos_palabra x hx prevB c resto.head?).symm)
        h2

theorem pasaReglaO_self (x : Char) (hxd : esDigito x = false) :
    ∀ (u : List Char) (prev1 prev2 : Option Char),
      (esDigitoOpc prev2 = true →
        esDigitoOpc prev1 = true ∨ esDigitoOpc u.head? = true) →
      pasaRegla (reglaEntreDigitos x) prev2
        (subContexto (reglaEntreDigitos x) prev1 u) := by
  intro u
  induction u with
  | nil => intro _ _ _; trivial
  | cons c resto ih =>
    intro prev1 prev2 hinv
    simp only [subContexto]
    constructor
    · rcases reglaEntreDigitos_rango x prev1 c resto.head? with hc' | hc'
      · rw [hc']
        by_cases hcx : c = x
        · have hnofire : ¬(esDigitoOpc prev1 = true ∧
              esDigitoOpc resto.head? = true) := by
            intro hcond
            unfold reglaEntreDigitos at hc'
            rw [if_pos ⟨hcx, hcond.1, hcond.2⟩] at hc'
            rw [← hcx] at hxd
            rw [← hc'] at hxd
            exact absurd hxd (by decide)
          simp only [reglaEntreDigitos]
          rw [if_neg]
          intro hcc
          have hcabd : (subContexto (reglaEntreDigitos x) (some c) resto).head?
              = resto.head? := by
            apply cabeza_digitos_sin_prev
            simp only [esDigitoOpc]
            rw [hcx]
            exact hxd
          rw [hcabd] at hcc
          rcases hinv hcc.2.1 with hd | hd
          · exact hnofire ⟨hd, hcc.2.2⟩
          · simp only [List.head?_cons, esDigitoOpc] at hd
            rw [hcx] at hd
            rw [hd] at hxd
            exact absurd hxd (by decide)
        · simp only [reglaEntreDigitos]
          rw [if_neg]
          intro hcc
          exact hcx hcc.1
      · rw [hc']
        simp only [reglaEntreDigitos]
        rw [if_neg]
        intro hcc
        rw [← hcc.1] at hxd
        exact absurd hxd (by decide)
    · refine ih (some c) (some (reglaEntreDigitos x prev1 c resto.head?)) ?_
      intro hd2
      by_cases hcond : (c = x ∧ esDigitoOpc prev1 = true ∧
          esDigitoOpc resto.head? = true)
      · exact Or.inr hcond.2.2
      · have hceq : reglaEntreDigitos x prev1 c resto.head? = c := by
          unfold reglaEntreDigitos
          rw [if_neg hcond]
        rw [hceq] at hd2
        exact Or.inl hd2

/-- The benign alphabet: lowercase ASCII letters, digits and the space. -/
def alfabetoBenigno : List Char :=
  "abcdefghijklmnopqrstuvwxyz0123456789 ".data

theorem limpiar_idem_benigno (s : List Char)
    (hs : ∀ c ∈ s, c ∈ alfabetoBenigno) :
    limpiar_texto_fecha (limpiar_texto_fecha s) = limpiar_texto_fecha s := by
  have hsinPipe : ∀ d ∈ alfabetoBenigno, (if d = '|' then '/' else d) = d := by
    decide
  have hsinO : ∀ d ∈ alfabetoBenigno, d ≠ 'O' := by decide
  have hsinPar : ∀ d ∈ alfabetoBenigno, (!esParentesisChar d) = true := by decide
  have h1mem : ('1' : Char) ∈ alfabetoBenigno := by decide
  have h0mem : ('0' : Char) ∈ alfabetoBenigno := by decide
  have hpipe1 : s.map (fun c => if c = '|' then '/' else c) = s :=
    mapa_id s (fun c hc => hsinPipe c (hs c hc))
  have hchar_u : ∀ c ∈ subContexto reglaLAislada none s, c ∈ alfabetoBenigno := by
    intro c hc
    rcases mem_subContexto reglaLAislada '1' reglaLAislada_rango s none c hc with h | h
    · exact hs c h
    · rw [h]; exact h1mem
  have hO : subContexto (reglaEntreDigitos 'O') none
      (subContexto reglaLAislada none s) = subContexto reglaLAislada none s :=
    subContexto_id _ _ none (pasaRegla_sin_objetivo 'O' _ none
      (fun c hc => hsinO c (hchar_u c hc)))
  have hchar_t : ∀ c ∈ subContexto (reglaEntreDigitos 'o') none
      (subContexto reglaLAislada none s), c ∈ alfabetoBenigno := by
    intro c hc
    rcases mem_subContexto (reglaEntreDigitos 'o') '0'
      (reglaEntreDigitos_rango 'o') _ none c hc with h | h
    · exact hchar_u c h
    · rw [h]; exact h0mem
  have hfiltro_t : (subContexto (reglaEntreDigitos 'o') none
      (subContexto reglaLAislada none s)).filter (fun c => !esParentesisChar c)
        = subContexto (reglaEntreDigitos 'o') none
            (subContexto reglaLAislada none s) :=
    List.filter_eq_self.mpr (fun c hc => hsinPar c (hchar_t c hc))
  have hlimp1 : limpiar_texto_fecha s = subContexto (reglaEntreDigitos 'o') none
      (subContexto reglaLAislada none s) := by
    unfold limpiar_texto_fecha
    rw [hpipe1, hO, hfiltro_t]
  rw [hlimp1]
  have hpipe2 : (subContexto (reglaEntreDigitos 'o') none
      (subContexto reglaLAislada none s)).map
        (fun c => if c = '|' then '/' else c) =
      subContexto (reglaEntreDigitos 'o') none
        (subContexto reglaLAislada none s) :=
    mapa_id _ (fun c hc => hsinPipe c (hchar_t c hc))
  have hLt : subContexto reglaLAislada none
      (subContexto (reglaEntreDigitos 'o') none
        (subContexto reglaLAislada none s)) =
      subContexto (reglaEntreDigitos 'o') none
        (subContexto reglaLAislada none s) :=
    subContexto_id _ _ none
      (pasaReglaL_tras_oSub 'o' (by decide) (by decide)
        (subContexto reglaLAislada none s) none none none rfl
        (pasaReglaL_self s none none rfl))
  have hOt : subContexto (reglaEntreDigitos 'O') none
      (subContexto (reglaEntreDigitos 'o') none
        (subContexto reglaLAislada none s)) =
      subContexto (reglaEntreDigitos 'o') none
        (subContexto reglaLAislada none s) :=
    subContexto_id _ _ none (pasaRegla_sin_objetivo 'O' _ none
      (fun c hc => hsinO c (hchar_t c hc)))
  have hot : subContexto (reglaEntreDigitos 'o') none
      (subContexto (reglaEntreDigitos 'o') none
        (subContexto reglaLAislada none s)) =
      subContexto (reglaEntreDigitos 'o') none
        (subContexto reglaLAislada none s) :=
    subContexto_id _ _ none
      (pasaReglaO_self 'o' (by decide) (subContexto reglaLAislada none s)
        none none (fun h => absurd h (by decide)))
  unfold limpiar_texto_fecha
  rw [hpipe2, hLt, hOt, hot]
  exact hfiltro_t

/-- Word-character test on the first character of a remainder (false at
the end of the string, where a word boundary always exists). -/
def esPalabraCabeza (r : List Char) : Bool :=
  match r.head? with
  | some c => esCarPalabra c
  | none => false

/-- re.sub(r'\.pdf', '', s) after lowercasing: delete every occurrence of
".pdf", scanning left to right (fuel bounded by the length; each step
consumes at least one character, so the fuel never runs out). -/
def quitaPdfFuel : Nat → List Char → List Char
  | 0, s => s
  | _, [] => []
  | fuel + 1, c :: r =>
      if c = '.' ∧ esPrefijo "pdf".data r = true then quitaPdfFuel fuel (r.drop 3)
      else c :: quitaPdfFuel fuel r

def quitaPdf (s : List Char) : List Char := quitaPdfFuel s.length s

/-- The "mail\b" tail of the 01-MAIL pattern. -/
def coincideMailCola : List Char → Bool
  | 'm' :: 'a' :: 'i' :: 'l' :: resto => !esPalabraCabeza resto
  | _ => false

/-- Leftmost-match test for re 1: a word boundary, one or two digits, a
hyphen, "mail" and a word boundary (a run of three or more digits can
never back off to expose the hyphen, so it never matches). -/
def coincideMail (prevPalabra : Bool) (s : List Char) : Bool :=
  !prevPalabra &&
  (match s with
   | c1 :: r1 =>
       esDigito c1 &&
       (match r1 with
        | c2 :: r2 =>
            if esDigito c2 then
              (match r2 with
               | c3 :: r3 => (c3 == '-') && coincideMailCola r3
               | [] => false)
            else (c2 == '-') && coincideMailCola r2
        | [] => false)
   | [] => false)

/-- Match test for re 2: optional whitespace, a dash/pipe/en-dash,
optional whitespace, then "no." (no word boundaries involved). -/
def coincideNoNum (_prevPalabra : Bool) (s : List Char) : Bool :=
  match s.dropWhile esEspacio with
  | c :: r =>
      (c == '-' || c == '|' || c == '–') &&
      esPrefijo "no.".data (r.dropWhile esEspacio)
  | [] => false

/-- Match test for re 3: optional whitespace, then the word "nis" with
boundaries on both sides (when no whitespace is skipped the preceding
character must not be a word character). -/
def coincideNis (prevPalabra : Bool) (s : List Char) : Bool :=
  (if s.length = (s.dropWhile esEspacio).length then !prevPalabra else true) &&
  esPrefijo "nis".data (s.dropWhile esEspacio) &&
  !esPalabraCabeza ((s.dropWhile esEspacio).drop 3)

/-- Match test for re 4: optional whitespace, the word stem "radicad"
with a word boundary before it, an optional o or a, then a boundary. -/
def coincideRadicado (prevPalabra : Bool) (s : List Char) : Bool :=
  (if s.length = (s.dropWhile esEspacio).length then !prevPalabra else true) &&
  esPrefijo "radicad".data (s.dropWhile esEspacio) &&
  (match (s.dropWhile esEspacio).drop 7 with
   | [] => true
   | c :: r2 =>
       if c = 'o' ∨ c = 'a' then !esPalabraCabeza r2 else !esCarPalabra c)

/-- Match test for re 5: one of the words anexos, respuestas, internas
with boundaries on both sides. -/
def coincideAnexos (prevPalabra : Bool) (s : List Char) : Bool :=
  !prevPalabra &&
  ((esPrefijo "anexos".data s && !esPalabraCabeza (s.drop 6)) ||
   (esPrefijo "respuestas".data s && !esPalabraCabeza (s.drop 10)) ||
   (esPrefijo "internas".data s && !esPalabraCabeza (s.drop 8)))

/-- re.sub(X + r'.*', '', s) for a single-line string: truncate the
string at the leftmost match of X, tracking whether the previous
character was a word character. -/
def cortaDesde (coincide : Bool → List Char → Bool) :
    Bool → List Char → List Char
  | _, [] => []
  | prevP, c :: r =>
      if coincide prevP (c :: r) = true then []
      else c :: cortaDesde coincide (esCarPalabra c) r

def esAbre (c : Char) : Bool := c = '(' || c = '[' || c = '{'
def esCierra (c : Char) : Bool := c = ')' || c = ']' || c = '}'

/-- The remainder after the first closing bracket, if any. -/
def buscaCierra : List Char → Option (List Char)
  | [] => none
  | c :: r => if esCierra c = true then some r else buscaCierra r

/-- re.sub(r'[\(\[\{].*?[\)\]\}]', ' ', s) for a single-line string: each
opening bracket together with the (lazily matched) content up to the
nearest closing bracket becomes one space; an opener with no closer ahead
stays.  Fuel bounded by the length; every step consumes at least one
character. -/
def quitaParentesisFuel : Nat → List Char → List Char
  | 0, s => s
  | _, [] => []
  | fuel + 1, c :: r =>
      if esAbre c = true then
        match buscaCierra r with
        | some resto => ' ' :: quitaParentesisFuel fuel resto
        | none => c :: quitaParentesisFuel fuel r
      else c :: quitaParentesisFuel fuel r

def quitaParentesisContenido (s : List Char) : List Char :=
  quitaParentesisFuel s.length s

/-- Skip a run of digits. -/
def saltaDigitos : List Char → List Char
  | [] => []
  | c :: r => if esDigito c = true then saltaDigitos r else c :: r

/-- Match test for re.sub(r'ticketid[_\-]?\d+', ' ', s) at the current
position: the literal "ticketid", an optional underscore or hyphen, then
at least one digit; returns the remainder after the greedily consumed
digits. -/
def coincideTicket (s : List Char) : Option (List Char) :=
  if esPrefijo "ticketid".data s = true then
    match s.drop 8 with
    | c :: rr =>
        if c = '_' ∨ c = '-' then
          (match rr with
           | d :: dd => if esDigito d = true then some (saltaDigitos dd) else none
           | [] => none)
        else if esDigito c = true then some (saltaDigitos rr)
        else none
    | [] => none
  else none

def quitaTicketFuel : Nat → List Char → List Char
  | 0, s => s
  | _, [] => []
  | fuel + 1, c :: r =>
      match coincideTicket (c :: r) with
      | some resto => ' ' :: quitaTicketFuel fuel resto
      | none => c :: quitaTicketFuel fuel r

def quitaTicket (s : List Char) : List Char := quitaTicketFuel s.length s

/-- Length of the digit prefix. -/
def cuentaDigitosIni : List Char → Nat
  | [] => 0
  | c :: r => if esDigito c = true then 1 + cuentaDigitosIni r else 0

/-- Match test for re.sub(r'\b\d{5,}\b', ' ', s): a word boundary, an
entire digit run of length at least 5, and a word boundary after it;
returns the remainder after the run. -/
def coincideDigitosLargos (prevPalabra : Bool) (s : List Char) :
    Option (List Char) :=
  if prevPalabra then none
  else
    if 5 ≤ cuentaDigitosIni s ∧
        esPalabraCabeza (s.drop (cuentaDigitosIni s)) = false then
      some (s.drop (cuentaDigitosIni s))
    else none

def quitaDigitosLargosFuel : Nat → Bool → List Char → List Char
  | 0, _, s => s
  | _, _, [] => []
  | fuel + 1, prevP, c :: r =>
      match coincideDigitosLargos prevP (c :: r) with
      | some resto => ' ' :: quitaDigitosLargosFuel fuel true resto
      | none => c :: quitaDigitosLargosFuel fuel (esCarPalabra c) r

def quitaDigitosLargos (s : List Char) : List Char :=
  quitaDigitosLargosFuel s.length false s

/-- The separator class of re.sub(r'[_\-\.\,;:\/\\]+', ' ', s). -/
def esSeparador (c : Char) : Bool :=
  c = '_' || c = '-' || c = '.' || c = ',' || c = ';' || c = ':' ||
  c = '/' || c = '\\'

/-- Separator runs collapse to single spaces. -/
def separadoresAux : Bool → List Char → List Char
  | _, [] => []
  | enSep, c :: r =>
      if esSeparador c = true then
        (if enSep then separadoresAux true r else ' ' :: separadoresAux true r)
      else c :: separadoresAux false r

/-- The kept-character class of re.sub(r'[^a-z0-9ñáéíóú\s]', ' ', s). -/
def enCharsetNorm (c : Char) : Bool :=
  ('a' ≤ c && c ≤ 'z') || esDigito c || c = 'ñ' || c = 'á' || c = 'é' ||
  c = 'í' || c = 'ó' || c = 'ú' || esEspacio c

def charsetNorm (s : List Char) : List Char :=
  s.map (fun c => if enCharsetNorm c then c else ' ')

/-- quitar_acentos (NFKD then dropping combining marks) on the characters
that can reach it in this pipeline: accented vowels and ñ decompose to
their base letter, everything else is left alone. -/
def quitar_acentos (s : List Char) : List Char :=
  s.map (fun c =>
    if c = 'á' then 'a'
    else if c = 'é' then 'e'
    else if c = 'í' then 'i'
    else if c = 'ó' then 'o'
    else if c = 'ú' then 'u'
    else if c = 'ñ' then 'n'
    else if c = 'ü' then 'u'
    else c)

/-- Embeds normalizar_texto: lowercase, remove ".pdf", truncate at the
noise patterns (NN-mail, "- No.", nis, radicado, anexos and friends),
blank bracketed segments, ticket ids and long digit runs, separators and
out-of-charset characters to spaces, strip accents, collapse whitespace
and strip. -/
def normalizar_texto (s : List Char) : List Char :=
  recortaEspacios (colapsaEspacios (quitar_acentos (charsetNorm
    (separadoresAux false (quitaDigitosLargos (quitaTicket
      (quitaParentesisContenido (cortaDesde coincideAnexos false
        (cortaDesde coincideRadicado false (cortaDesde coincideNis false
          (cortaDesde coincideNoNum false (cortaDesde coincideMail false
            (quitaPdf (minusculas s))))))))))))))

/-- dict.fromkeys-style deduplication keeping first occurrences. -/
def dedupAux {α : Type} [BEq α] (vistos : List α) : List α → List α
  | [] => []
  | x :: r =>
      if vistos.contains x then dedupAux vistos r
      else x :: dedupAux (vistos ++ [x]) r

def dedupPrimera {α : Type} [BEq α] (l : List α) : List α := dedupAux [] l

/-- Stable insertion for the longest-first phrase ordering of
sorted(..., key=lambda x: -len(x)): walk past entries at least as long. -/
def insertaPorLargo (x : List Char) : List (List Char) → List (List Char)
  | [] => [x]
  | y :: r =>
      if y.length < x.length then x :: y :: r else y :: insertaPorLargo x r

def ordenaPorLargoDesc (l : List (List Char)) : List (List Char) :=
  l.foldl (fun acc x => insertaPorLargo x acc) []

/-- Code-point lexicographic order, as Python compares strings. -/
def lexLe : List Char → List Char → Bool
  | [], _ => true
  | _ :: _, [] => false
  | x :: xs, y :: ys =>
      if x < y then true else if y < x then false else lexLe xs ys

/-- Stable insertion for sorted() ascending. -/
def insertaLex (x : String) : List String → List String
  | [] => [x]
  | y :: r => if lexLe y.data x.data then y :: insertaLex x r else x :: y :: r

def ordenaCadenas (l : List String) : List String :=
  l.foldl (fun acc x => insertaLex x acc) []

/-- The catch-all markers of inferir_items_desde_nombre (a Python set
literal; only membership is ever used, so the order is immaterial). -/
def todoMarkers : List String :=
  ["todo", "completo", "completa", "documentos", "documento", "anexo",
   "anexos", "adjuntos", "adjunto", "todos"]

/-- The candidate phrases of one checklist item: normalized title and
normalized keywords, empty ones dropped, deduplicated keeping first
occurrences, longest first. -/
def construyeFrases (item : ItemChecklist) : List (List Char) :=
  ordenaPorLargoDesc (dedupPrimera
    ((if normalizar_texto item.titulo.data = [] then []
      else [normalizar_texto item.titulo.data]) ++
     item.keywords.foldr (fun kw acc =>
       if normalizar_texto kw.data = [] then acc
       else normalizar_texto kw.data :: acc) []))

/-- Embeds inferir_items_desde_nombre: an empty filename or an empty
normalized filename infers nothing; a catch-all marker in the normalized
filename returns the empty set (evaluate every item); otherwise an item
is detected when one of its phrases occurs in the normalized filename
(the source breaks at the first phrase hit, which only affects logging,
so detection is an existence test), and the detected ids are returned
deduplicated and sorted. -/
def inferir_items_desde_nombre (nombre_archivo tipo_devolucion : String) :
    List String :=
  if nombre_archivo = "" then []
  else if normalizar_texto nombre_archivo.data = [] then []
  else if todoMarkers.any (fun m =>
      esSubcadena m.data (normalizar_texto nombre_archivo.data)) then []
  else
    let items := if tipo_devolucion = "misional" then CHECKLIST_misional
                 else CHECKLIST_no_misional
    let detected := items.foldl (fun acc item =>
      if (construyeFrases item).any (fun f =>
          esSubcadena f (normalizar_texto nombre_archivo.data)) then
        acc ++ [item.id]
      else acc) []
    if detected = [] then [] else ordenaCadenas (dedupPrimera detected)

set_option maxRecDepth 1000000 in
/-- C9 counterexample: the raw filename "rut (completo).pdf" contains the
catch-all marker "completo", yet inferir_items_desde_nombre does not
return the empty set: normalization strips the bracketed segment before
the marker check, the normalized name is "rut", and the rut item is
inferred. -/
theorem inferir_completo_entre_parentesis :
    inferir_items_desde_nombre "rut (completo).pdf" "misional" = ["rut"] ∧
    contiene "rut (completo).pdf" "completo" = true := by
  constructor
  · rfl
  · rfl

/-- C9 amended: whenever the NORMALIZED filename contains a catch-all
marker, inferir_items_desde_nombre returns the empty set, regardless of
any other overlap between the filename and the checklist items. -/
theorem inferir_marcador_todo (nombre tipo : String)
    (h : todoMarkers.any (fun m =>
      esSubcadena m.data (normalizar_texto nombre.data)) = true) :
    inferir_items_desde_nombre nombre tipo = [] := by
  have hne : normalizar_texto nombre.data ≠ [] := by
    intro hc
    rw [hc] at h
    rcases List.any_eq_true.mp h with ⟨m, hm, hsub⟩
    have : ∀ m ∈ todoMarkers, esSubcadena m.data [] = false := by decide
    rw [this m hm] at hsub
    exact absurd hsub (by decide)
  have hnombre : nombre ≠ "" := by
    intro hc
    subst hc
    exact hne rfl
  unfold inferir_items_desde_nombre
  rw [if_neg hnombre, if_neg hne, if_pos h]

set_option maxRecDepth 1000000 in
/-- C9 witness at a concrete input: "documentos.pdf" normalizes to
"documentos", which contains the marker "documentos", so nothing is
inferred. -/
theorem inferir_marcador_todo_testigo :
    inferir_items_desde_nombre "documentos.pdf" "misional" = [] :=
  inferir_marcador_todo "documentos.pdf" "misional" (by decide)

/-- True when the string does not start with a Python whitespace
character (vacuously for the empty string). -/
def cabezaNoEspacio : List Char → Bool
  | [] => true
  | c :: _ => !esEspacio c

/-- True when no two consecutive characters are both plain spaces. -/
def sinDoblesEspacios : List Char → Bool
  | [] => true
  | [_] => true
  | c :: d :: r => !(c == ' ' && d == ' ') && sinDoblesEspacios (d :: r)

/-- True when some suffix of the string starts with a run of at least
five digits. -/
def hayDigitosLargos : List Char → Bool
  | [] => false
  | c :: r => decide (5 ≤ cuentaDigitosIni (c :: r)) || hayDigitosLargos r

/-- A string in the normal form produced by normalizar_texto on benign
input: benign characters only, stripped, no double spaces, none of the
noise tokens the pipeline deletes, and no run of five or more digits. -/
def formaNormal (s : List Char) : Bool :=
  s.all (fun c => decide (c ∈ alfabetoBenigno)) &&
  (cabezaNoEspacio s && cabezaNoEspacio s.reverse && sinDoblesEspacios s) &&
  (!esSubcadena "nis".data s && !esSubcadena "radicad".data s &&
   !esSubcadena "anexos".data s && !esSubcadena "respuestas".data s &&
   !esSubcadena "internas".data s && !esSubcadena "ticketid".data s) &&
  !hayDigitosLargos s

theorem esPrefijo_subcadena (a : List Char) :
    ∀ u : List Char, esPrefijo a u = true → esSubcadena a u = true := by
  intro u h
  cases u with
  | nil => simpa [esSubcadena] using h
  | cons c r => simp [esSubcadena, h]

theorem subcadena_de_sufijo (a : List Char) :
    ∀ {u v : List Char}, u <:+ v → esSubcadena a u = true →
      esSubcadena a v = true := by
  intro u v
  induction v with
  | nil =>
    intro h hs
    rw [List.suffix_nil.mp h] at hs
    exact hs
  | cons c r ih =>
    intro h hs
    rcases List.suffix_cons_iff.mp h with hEq | hSuf
    · rwa [hEq] at hs
    · simp [esSubcadena, ih hSuf hs]

theorem subcadena_falsa_sufijo (a : List Char) {u v : List Char}
    (h : u <:+ v) (hv : esSubcadena a v = false) :
    esSubcadena a u = false := by
  cases hu : esSubcadena a u with
  | false => rfl
  | true =>
    rw [subcadena_de_sufijo a h hu] at hv
    exact absurd hv (by simp)

theorem subcadena_cola (a : List Char) (c : Char) (r : List Char)
    (h : esSubcadena a (c :: r) = false) : esSubcadena a r = false := by
  have h' := h
  simp only [esSubcadena, Bool.or_eq_false_iff] at h'
  exact h'.2

theorem quitaPdfFuel_id :
    ∀ (fuel : Nat) (s : List Char), '.' ∉ s → quitaPdfFuel fuel s = s := by
  intro fuel
  induction fuel with
  | zero => intro s _; cases s <;> rfl
  | succ n ih =>
    intro s h
    cases s with
    | nil => rfl
    | cons c r =>
      have hc : ¬(c = '.' ∧ esPrefijo "pdf".data r = true) := by
        rintro ⟨hc, -⟩
        apply h
        rw [← hc]
        exact List.mem_cons_self c r
      simp only [quitaPdfFuel, if_neg hc]
      rw [ih r (fun hm => h (List.mem_cons.mpr (Or.inr hm)))]

theorem cortaDesde_id (coincide : Bool → List Char → Bool) :
    ∀ s : List Char,
      (∀ (b : Bool) (u : List Char), u <:+ s → coincide b u = false) →
      ∀ b, cortaDesde coincide b s = s := by
  intro s
  induction s with
  | nil => intro _ _; rfl
  | cons c r ih =>
    intro h b
    have hc : coincide b (c :: r) = false := h b (c :: r) (List.suffix_refl _)
    have hnc : ¬(coincide b (c :: r) = true) := by
      rw [hc]; exact Bool.false_ne_true
    simp only [cortaDesde, if_neg hnc]
    rw [ih (fun b' u hu => h b' u (hu.trans (List.suffix_cons c r))) (esCarPalabra c)]

theorem quitaParentesisFuel_id :
    ∀ (fuel : Nat) (s : List Char), (∀ c ∈ s, esAbre c = false) →
      quitaParentesisFuel fuel s = s := by
  intro fuel
  induction fuel with
  | zero => intro s _; cases s <;> rfl
  | succ n ih =>
    intro s h
    cases s with
    | nil => rfl
    | cons c r =>
      have hc : ¬(esAbre c = true) := by
        rw [h c (List.mem_cons_self c r)]; exact Bool.false_ne_true
      simp only [quitaParentesisFuel, if_neg hc]
      rw [ih r (fun d hd => h d (List.mem_cons.mpr (Or.inr hd)))]

theorem separadoresAux_id :
    ∀ s : List Char, (∀ c ∈ s, esSeparador c = false) →
      ∀ b, separadoresAux b s = s := by
  intro s
  induction s with
  | nil => intro _ _; rfl
  | cons c r ih =>
    intro h b
    have hc : ¬(esSeparador c = true) := by
      rw [h c (List.mem_cons_self c r)]; exact Bool.false_ne_true
    simp only [separadoresAux, if_neg hc]
    rw [ih (fun d hd => h d (List.mem_cons.mpr (Or.inr hd))) false]

theorem colapsaAux_id :
    ∀ s : List Char, sinDoblesEspacios s = true →
      (∀ c ∈ s, esEspacio c = true → c = ' ') →
      ∀ b : Bool, (b = true → cabezaNoEspacio s = true) →
      colapsaAux b s = s := by
  intro s
  induction s with
  | nil => intro _ _ _ _; rfl
  | cons c r ih =>
    intro hDob hEsp b hb
    by_cases hce : esEspacio c = true
    · have hcsp : c = ' ' := hEsp c (List.mem_cons_self c r) hce
      cases b with
      | true =>
        have := hb rfl
        simp only [cabezaNoEspacio, hce] at this
        exact absurd this (by simp)
      | false =>
        simp only [colapsaAux, if_pos hce, if_neg (by simp : ¬(false = true))]
        have hDobr : sinDoblesEspacios r = true := by
          cases r with
          | nil => rfl
          | cons d r' =>
            simp only [sinDoblesEspacios, Bool.and_eq_true] at hDob
            exact hDob.2
        have hcabr : cabezaNoEspacio r = true := by
          cases r with
          | nil => rfl
          | cons d r' =>
            simp only [sinDoblesEspacios, Bool.and_eq_true, Bool.not_eq_true',
              Bool.and_eq_false_iff, beq_eq_false_iff_ne, ne_eq] at hDob
            rcases hDob.1 with hcd | hdd
            · exact absurd hcsp hcd
            · have : esEspacio d = false := by
                cases hde : esEspacio d with
                | false => rfl
                | true => exact absurd (hEsp d (by simp) hde) hdd
              simp [cabezaNoEspacio, this]
        rw [ih hDobr (fun d hd he => hEsp d (List.mem_cons.mpr (Or.inr hd)) he)
          true (fun _ => hcabr), hcsp]
    · simp only [colapsaAux, if_neg hce]
      have hDobr : sinDoblesEspacios r = true := by
        cases r with
        | nil => rfl
        | cons d r' =>
          simp only [sinDoblesEspacios, Bool.and_eq_true] at hDob
          exact hDob.2
      rw [ih hDobr (fun d hd he => hEsp d (List.mem_cons.mpr (Or.inr hd)) he)
        false (fun hq => absurd hq (by simp))]

theorem recortaEspacios_id (s : List Char)
    (h1 : cabezaNoEspacio s = true) (h2 : cabezaNoEspacio s.reverse = true) :
    recortaEspacios s = s := by
  unfold recortaEspacios
  have hd : s.dropWhile esEspacio = s := by
    cases s with
    | nil => rfl
    | cons c r =>
      have hc : esEspacio c = false := by
        simpa [cabezaNoEspacio] using h1
      simp [List.dropWhile_cons, hc]
  rw [hd]
  have hrev : s.reverse.dropWhile esEspacio = s.reverse := by
    cases hr : s.reverse with
    | nil => rfl
    | cons c r =>
      rw [hr] at h2
      have hc : esEspacio c = false := by
        simpa [cabezaNoEspacio] using h2
      simp [List.dropWhile_cons, hc]
  rw [hrev, List.reverse_reverse]

theorem coincideTicket_prefijo (u : List Char) (r : List Char)
    (h : coincideTicket u = some r) : esPrefijo "ticketid".data u = true := by
  by_cases hp : esPrefijo "ticketid".data u = true
  · exact hp
  · unfold coincideTicket at h
    rw [if_neg hp] at h
    exact absurd h (by simp)

theorem quitaTicketFuel_id :
    ∀ (fuel : Nat) (s : List Char), esSubcadena "ticketid".data s = false →
      quitaTicketFuel fuel s = s := by
  intro fuel
  induction fuel with
  | zero => intro s _; cases s <;> rfl
  | succ n ih =>
    intro s h
    cases s with
    | nil => rfl
    | cons c r =>
      have htk : coincideTicket (c :: r) = none := by
        cases htc : coincideTicket (c :: r) with
        | none => rfl
        | some x =>
          have hsub := esPrefijo_subcadena _ _ (coincideTicket_prefijo _ _ htc)
          rw [hsub] at h
          exact absurd h (by simp)
      simp only [quitaTicketFuel, htk]
      rw [ih r (subcadena_cola _ c r h)]

theorem quitaDigitosLargosFuel_id :
    ∀ (fuel : Nat) (b : Bool) (s : List Char), hayDigitosLargos s = false →
      quitaDigitosLargosFuel fuel b s = s := by
  intro fuel
  induction fuel with
  | zero => intro b s _; cases s <;> rfl
  | succ n ih =>
    intro b s h
    cases s with
    | nil => rfl
    | cons c r =>
      simp only [hayDigitosLargos, Bool.or_eq_false_iff] at h
      obtain ⟨h1, h2⟩ := h
      have hno : ¬(5 ≤ cuentaDigitosIni (c :: r)) := of_decide_eq_false h1
      have hcd : coincideDigitosLargos b (c :: r) = none := by
        cases b with
        | true => rfl
        | false =>
          unfold coincideDigitosLargos
          rw [if_neg (by simp : ¬(false = true)),
            if_neg (fun hc => hno hc.1)]
      simp only [quitaDigitosLargosFuel, hcd]
      rw [ih (esCarPalabra c) r h2]

theorem coincideMail_guion (b : Bool) :
    ∀ u : List Char, coincideMail b u = true → '-' ∈ u := by
  intro u h
  match u with
  | [] => exact absurd h (by simp [coincideMail])
  | [c1] => exact absurd h (by simp [coincideMail])
  | c1 :: c2 :: r2 =>
    by_cases hd2 : esDigito c2 = true
    · match r2 with
      | [] => exact absurd h (by simp [coincideMail, hd2])
      | c3 :: r3 =>
        simp only [coincideMail, hd2, if_pos, Bool.and_eq_true,
          beq_iff_eq] at h
        have h3 : c3 = '-' := h.2.2.1
        simp [h3]
    · have hd2' : esDigito c2 = false := by
        cases hd : esDigito c2 with
        | false => rfl
        | true => exact absurd hd hd2
      simp only [coincideMail, hd2', Bool.false_eq_true, if_false,
        Bool.and_eq_true, beq_iff_eq] at h
      have h2' : c2 = '-' := h.2.2.1
      simp [h2']

theorem coincideNoNum_mem (b : Bool) (u : List Char)
    (h : coincideNoNum b u = true) :
    ∃ c ∈ u, c = '-' ∨ c = '|' ∨ c = '–' := by
  unfold coincideNoNum at h
  cases hd : u.dropWhile esEspacio with
  | nil =>
    rw [hd] at h
    exact absurd h (by simp)
  | cons c r =>
    rw [hd] at h
    simp only [Bool.and_eq_true, Bool.or_eq_true, beq_iff_eq] at h
    have hcm : c ∈ u := by
      apply (List.dropWhile_suffix esEspacio).subset
      rw [hd]
      exact List.mem_cons_self c r
    exact ⟨c, hcm, or_assoc.mp h.1⟩

theorem coincideNis_subcadena (b : Bool) (u : List Char)
    (h : coincideNis b u = true) : esSubcadena "nis".data u = true := by
  unfold coincideNis at h
  rw [Bool.and_eq_true, Bool.and_eq_true] at h
  exact subcadena_de_sufijo _ (List.dropWhile_suffix esEspacio)
    (esPrefijo_subcadena _ _ h.1.2)

theorem coincideRadicado_subcadena (b : Bool) (u : List Char)
    (h : coincideRadicado b u = true) : esSubcadena "radicad".data u = true := by
  unfold coincideRadicado at h
  rw [Bool.and_eq_true, Bool.and_eq_true] at h
  exact subcadena_de_sufijo _ (List.dropWhile_suffix esEspacio)
    (esPrefijo_subcadena _ _ h.1.2)

theorem coincideAnexos_subcadena (b : Bool) (u : List Char)
    (h : coincideAnexos b u = true) :
    esSubcadena "anexos".data u = true ∨
    esSubcadena "respuestas".data u = true ∨
    esSubcadena "internas".data u = true := by
  unfold coincideAnexos at h
  rw [Bool.and_eq_true] at h
  have h2 := h.2
  rw [Bool.or_eq_true, Bool.or_eq_true, Bool.and_eq_true, Bool.and_eq_true,
    Bool.and_eq_true] at h2
  rcases h2 with (h1 | hx) | h3
  · exact Or.inl (esPrefijo_subcadena _ _ h1.1)
  · exact Or.inr (Or.inl (esPrefijo_subcadena _ _ hx.1))
  · exact Or.inr (Or.inr (esPrefijo_subcadena _ _ h3.1))

theorem normalizar_noop (s : List Char) (h : formaNormal s = true) :
    normalizar_texto s = s := by
  simp only [formaNormal, Bool.and_eq_true, Bool.not_eq_true',
    List.all_eq_true, decide_eq_true_eq] at h
  obtain ⟨⟨⟨hAlf, ⟨⟨hcabz, hcabR⟩, hdob⟩⟩,
    ⟨⟨⟨⟨⟨hnis, hrad⟩, hanx⟩, hrsp⟩, hint⟩, htk⟩⟩, hdig⟩ := h
  have e1 : minusculas s = s :=
    mapa_id s (fun c hc =>
      (by decide : ∀ c ∈ alfabetoBenigno, minusculaChar c = c) c (hAlf c hc))
  have e2 : quitaPdf s = s :=
    quitaPdfFuel_id s.length s (fun hdot => absurd (hAlf _ hdot) (by decide))
  have noFireMail : ∀ (b : Bool) (u : List Char), u <:+ s →
      coincideMail b u = false := by
    intro b u hu
    cases hcu : coincideMail b u with
    | false => rfl
    | true =>
      exact absurd (hAlf _ (hu.subset (coincideMail_guion b u hcu))) (by decide)
  have e3 : cortaDesde coincideMail false s = s :=
    cortaDesde_id coincideMail s noFireMail false
  have noFireNoNum : ∀ (b : Bool) (u : List Char), u <:+ s →
      coincideNoNum b u = false := by
    intro b u hu
    cases hcu : coincideNoNum b u with
    | false => rfl
    | true =>
      obtain ⟨c, hcu', hcor⟩ := coincideNoNum_mem b u hcu
      have hcs : c ∈ alfabetoBenigno := hAlf c (hu.subset hcu')
      rcases hcor with h1 | h1 | h1 <;> rw [h1] at hcs <;>
        exact absurd hcs (by decide)
  have e4 : cortaDesde coincideNoNum false s = s :=
    cortaDesde_id coincideNoNum s noFireNoNum false
  have noFireNis : ∀ (b : Bool) (u : List Char), u <:+ s →
      coincideNis b u = false := by
    intro b u hu
    cases hcu : coincideNis b u with
    | false => rfl
    | true =>
      have hsub := subcadena_de_sufijo _ hu (coincideNis_subcadena b u hcu)
      rw [hnis] at hsub
      exact absurd hsub (by simp)
  have e5 : cortaDesde coincideNis false s = s :=
    cortaDesde_id coincideNis s noFireNis false
  have noFireRad : ∀ (b : Bool) (u : List Char), u <:+ s →
      coincideRadicado b u = false := by
    intro b u hu
    cases hcu : coincideRadicado b u with
    | false => rfl
    | true =>
      have hsub := subcadena_de_sufijo _ hu (coincideRadicado_subcadena b u hcu)
      rw [hrad] at hsub
      exact absurd hsub (by simp)
  have e6 : cortaDesde coincideRadicado false s = s :=
    cortaDesde_id coincideRadicado s noFireRad false
  have noFireAnx : ∀ (b : Bool) (u : List Char), u <:+ s →
      coincideAnexos b u = false := by
    intro b u hu
    cases hcu : coincideAnexos b u with
    | false => rfl
    | true =>
      rcases coincideAnexos_subcadena b u hcu with h1 | h1 | h1
      · have hsub := subcadena_de_sufijo _ hu h1
        rw [hanx] at hsub
        exact absurd hsub (by simp)
      · have hsub := subcadena_de_sufijo _ hu h1
        rw [hrsp] at hsub
        exact absurd hsub (by simp)
      · have hsub := subcadena_de_sufijo _ hu h1
        rw [hint] at hsub
        exact absurd hsub (by simp)
  have e7 : cortaDesde coincideAnexos false s = s :=
    cortaDesde_id coincideAnexos s noFireAnx false
  have e8 : quitaParentesisContenido s = s :=
    quitaParentesisFuel_id s.length s (fun c hc =>
      (by decide : ∀ c ∈ alfabetoBenigno, esAbre c = false) c (hAlf c hc))
  have e9 : quitaTicket s = s := quitaTicketFuel_id s.length s htk
  have e10 : quitaDigitosLargos s = s :=
    quitaDigitosLargosFuel_id s.length false s hdig
  have e11 : separadoresAux false s = s :=
    separadoresAux_id s (fun c hc =>
      (by decide : ∀ c ∈ alfabetoBenigno, esSeparador c = false) c (hAlf c hc))
      false
  have e12 : charsetNorm s = s :=
    mapa_id s (fun c hc =>
      (by decide : ∀ c ∈ alfabetoBenigno,
        (if enCharsetNorm c then c else ' ') = c) c (hAlf c hc))
  have e13 : quitar_acentos s = s :=
    mapa_id s (fun c hc =>
      (by decide : ∀ c ∈ alfabetoBenigno,
        (if c = 'á' then 'a'
         else if c = 'é' then 'e'
         else if c = 'í' then 'i'
         else if c = 'ó' then 'o'
         else if c = 'ú' then 'u'
         else if c = 'ñ' then 'n'
         else if c = 'ü' then 'u'
         else c) = c) c (hAlf c hc))
  have e14 : colapsaEspacios s = s :=
    colapsaAux_id s hdob
      (fun c hc he =>
        (by decide : ∀ c ∈ alfabetoBenigno, esEspacio c = true → c = ' ')
          c (hAlf c hc) he)
      false (fun hq => absurd hq (by simp))
  have e15 : recortaEspacios s = s := recortaEspacios_id s hcabz hcabR
  unfold normalizar_texto
  rw [e1, e2, e3, e4, e5, e6, e7, e8, e9, e10, e11, e12, e13, e14, e15]

set_option maxRecDepth 40000 in
/-- C10 counterexample: neither normalizer is idempotent on all inputs.
limpiar_texto_fecha "1(O)2" first deletes the brackets, producing "1O2",
and only the second pass sees the O between digits and rewrites it to
"102".  normalizar_texto "te_nis x" first turns the underscore into a
space, producing "te nis x", and only the second pass sees the now
free-standing word "nis" and truncates there, producing "te". -/
theorem normalizacion_no_idempotente :
    limpiar_texto_fecha (limpiar_texto_fecha "1(O)2".data) ≠
      limpiar_texto_fecha "1(O)2".data ∧
    normalizar_texto (normalizar_texto "te_nis x".data) ≠
      normalizar_texto "te_nis x".data := by
  exact ⟨by decide, by decide⟩

/-- C10 amended: both normalizers are idempotent on their reachable
outputs. limpiar_texto_fecha is idempotent on every string over lowercase
letters, digits and spaces (each substitution pass only produces such
characters in real dates), and normalizar_texto is the identity — hence
idempotent — on every string in the normal form it produces on benign
input: benign characters, stripped, single-spaced, free of the noise
tokens and of five-digit runs. -/
theorem normalizacion_idempotente_condicional (s t : List Char)
    (hs : ∀ c ∈ s, c ∈ alfabetoBenigno) (ht : formaNormal t = true) :
    limpiar_texto_fecha (limpiar_texto_fecha s) = limpiar_texto_fecha s ∧
    normalizar_texto (normalizar_texto t) = normalizar_texto t := by
  refine ⟨limpiar_idem_benigno s hs, ?_⟩
  rw [normalizar_noop t ht]
  exact normalizar_noop t ht

set_option maxRecDepth 40000 in
/-- C10 witness: the conditional idempotence theorem applied at the
concrete date string "12 ene 2024" and the concrete normalized filename
"certificacion bancaria 123". -/
theorem normalizacion_idempotente_condicional_testigo :
    limpiar_texto_fecha (limpiar_texto_fecha "12 ene 2024".data) =
      limpiar_texto_fecha "12 ene 2024".data ∧
    normalizar_texto (normalizar_texto "certificacion bancaria 123".data) =
      normalizar_texto "certificacion bancaria 123".data :=
  normalizacion_idempotente_condicional "12 ene 2024".data
    "certificacion bancaria 123".data (by decide) (by decide)
